import Mathlib

/-!
Shallow embedding of `crossplane-contrib/function-deletion-protection`
(single source file `src/fn.go`).

Resources are Kubernetes-style unstructured objects (`map[string]any` in Go),
modelled here by a JSON-like value type `JVal`.  A `composed.Unstructured` /
`composite.Unstructured` wraps a possibly-nil object map, modelled by
`Unstructured := Option (List (String × JVal))`.  Go maps from member name to
resource are modelled as association lists under first-match `List.lookup`
semantics; Go map assignment `m[k] = v` is modelled by consing `(k, v)` in
front (`setKey`), which realises overwrite under lookup semantics.

The three request accessors (`request.GetObservedCompositeResource`,
`request.GetObservedComposedResources`, `request.GetDesiredComposedResources`)
are external SDK calls that can fail; the request is therefore modelled as a
record of `Except` values.  The external JSON conversion
(`convertViaJSON`) and response installation
(`response.SetDesiredComposedResources`) can also fail in the SDK layer; their
failure behaviour is modelled by oracle parameters `convertFails` / `setFails`
(the successful conversion result itself is the deterministic structural
round trip `convertUsage`).

Go's `for name, desired := range desiredComposed` iterates the keys present
when the loop starts in unspecified order, reading the value currently stored
at the key (the loop body overwrites entries of the same map); per the Go
specification, an entry created during the iteration may additionally be
produced, or may be skipped.  The full semantics is the relation `RangeExec`
(lifted to the whole handler as `RunFunctionRel`): any interleaving of the
initial keys, possibly interspersed with visits to entries added during the
iteration.  The function `MemberLoop` computes the particular schedule that
produces exactly the keys present at loop start, in the stored order; it is
one admissible execution (`memberLoop_rangeExec`), and `RunFunction` is the
handler under that schedule.
-/

namespace DeletionProtection

/-- JSON-like values making up an unstructured Kubernetes object.  Only
strings and objects are ever inspected by this program; every other JSON
shape (numbers, booleans, arrays, null) is collapsed into `other`. -/
inductive JVal where
  | str (s : String)
  | obj (fields : List (String × JVal))
  | other

/-- Field access in an object's field list (Go map indexing; first match). -/
def getField (fs : List (String × JVal)) (k : String) : Option JVal :=
  (fs.find? (fun p => p.1 == k)).map (fun p => p.2)

/-- An unstructured resource: a possibly-nil object map
(`composed.Unstructured` / `composite.Unstructured` wrap
`unstructured.Unstructured{Object map[string]any}`). -/
abbrev Unstructured := Option (List (String × JVal))

/-- A named collection of resources (`map[resource.Name]*resource.___Composed`
in Go), as an association list under lookup semantics. -/
abbrev ResMap := List (String × Unstructured)

/-- Model of `u.GetName()` / `u.GetNamespace()`: apimachinery `NestedString`,
which yields `""` when the path is missing or not a string. -/
def nestedString (u : Unstructured) (k1 k2 : String) : String :=
  match u with
  | none => ""
  | some fs =>
    match getField fs k1 with
    | some (.obj inner) =>
      match getField inner k2 with
      | some (.str s) => s
      | _ => ""
    | _ => ""

/-- Model of `u.GetName()`. -/
def getName (u : Unstructured) : String := nestedString u "metadata" "name"

/-- Model of `u.GetNamespace()`. -/
def getNamespace (u : Unstructured) : String := nestedString u "metadata" "namespace"

/-- Top-level string field, `""` when missing or not a string
(apimachinery `NestedString` with a one-segment path). -/
def topString (u : Unstructured) (k : String) : String :=
  match u with
  | none => ""
  | some fs =>
    match getField fs k with
    | some (.str s) => s
    | _ => ""

/-- Model of `u.GetAPIVersion()`. -/
def getAPIVersion (u : Unstructured) : String := topString u "apiVersion"

/-- Model of `u.GetKind()`. -/
def getKind (u : Unstructured) : String := topString u "kind"

/-- ASCII lowering of one character. -/
def lowerChar (c : Char) : Char :=
  if c.isUpper then Char.ofNat (c.toNat + 32) else c

/-- Model of `strings.EqualFold` as used here: case-insensitive string
comparison (ASCII folding; the only values compared case-insensitively by
this program are variants of the literal `"true"`). -/
def eqFold (a b : String) : Bool := a.data.map lowerChar == b.data.map lowerChar

/-- `ProtectionLabelBlockDeletion` constant (src/fn.go:28). -/
def ProtectionLabelBlockDeletion : String := "protection.fn.crossplane.io/block-deletion"

/-- `ProtectionLabelEnabled` constant (src/fn.go:29): declared in the source
but never read in the decision path. -/
def ProtectionLabelEnabled : String := "protection.fn.crossplane.io/enabled"

/-- Group of the external protection v1beta1 API package. -/
def protectionGroup : String := "protection.crossplane.io"

/-- Version of the external protection v1beta1 API package. -/
def protectionVersion : String := "v1beta1"

/-- `ProtectionGroupVersion` constant (src/fn.go:30). -/
def ProtectionGroupVersion : String := protectionGroup ++ "/" ++ protectionVersion

/-- `protectionv1beta1.UsageKind`. -/
def UsageKind : String := "Usage"

/-- `protectionv1beta1.ClusterUsageKind`. -/
def ClusterUsageKind : String := "ClusterUsage"

/-- The raw value stored at `metadata.labels`, when the object and its
`metadata` object exist. -/
def labelsVal (u : Unstructured) : Option JVal :=
  match u with
  | none => none
  | some fs =>
    match getField fs "metadata" with
    | some (.obj mfs) => getField mfs "labels"
    | _ => none

/-- `MatchLabel` (src/fn.go:131-146): `fieldpath.Pave(u.Object)
.GetValueInto("metadata.labels", &labels)` succeeds exactly when the object
is non-nil and `metadata.labels` is an object; then the value at `label` must
type-assert to a string and compare case-insensitively equal to `"true"`.
Every failure mode (nil object, missing or non-object labels, non-string
value, other value) returns `false`. -/
def MatchLabel (u : Unstructured) (label : String) : Bool :=
  match labelsVal u with
  | some (.obj lfs) =>
    match getField lfs label with
    | some (.str val) => eqFold val "true"
    | _ => false
  | _ => false

/-- `ProtectResource` (src/fn.go:126-128). -/
def ProtectResource (dc : Unstructured) (label : String) : Bool :=
  MatchLabel dc label

/-- Whether a label entry holds a string value. -/
def isStrVal (p : String × JVal) : Bool :=
  match p.2 with
  | .str _ => true
  | _ => false

/-- Collect the string-valued entries of a label object. -/
def strEntries (lfs : List (String × JVal)) : List (String × String) :=
  lfs.filterMap (fun p =>
    match p.2 with
    | .str s => some (p.1, s)
    | _ => none)

/-- Model of `dc.GetLabels()` (apimachinery `NestedStringMap`): the labels
object as a string map, or the empty map when it is missing, not an object,
or any of its values is not a string. -/
def GetLabels (u : Unstructured) : List (String × String) :=
  match labelsVal u with
  | some (.obj lfs) => if lfs.all isStrVal then strEntries lfs else []
  | _ => []

/-- `ProtectXR` (src/fn.go:115-123): look the protection label up in
`dc.GetLabels()` and compare case-insensitively with `"true"`. -/
def ProtectXR (dc : Unstructured) : Bool :=
  match List.lookup ProtectionLabelBlockDeletion (GetLabels dc) with
  | some val => eqFold val "true"
  | none => false

/-- Reason string of member-triggered records (src/fn.go:177). -/
def memberReason : String :=
  "Created by function-deletion-protection via label " ++ ProtectionLabelBlockDeletion

/-- Reason string of primary-triggered records (src/fn.go:212). -/
def xrReason : String :=
  "deletion blocked by function-deletion-protection via label " ++ ProtectionLabelBlockDeletion

/-- `GenerateUsage` (src/fn.go:149-181): build the usage map for a composed
resource.  (`DeepCopy` in the caller is a pure copy and is the identity in
this model.) -/
def GenerateUsage (u : Unstructured) : JVal :=
  let ns := getNamespace u
  let usageType := if ns = "" then ClusterUsageKind else UsageKind
  let resourceRef : JVal :=
    if ns = "" then .obj [("name", .str (getName u))]
    else .obj [("name", .str (getName u)), ("namespace", .str (getNamespace u))]
  .obj [("apiVersion", .str ProtectionGroupVersion),
        ("kind", .str usageType),
        ("metadata", .obj [("name", .str (getName u ++ "-function-protection"))]),
        ("spec", .obj [("of", .obj [("apiVersion", .str (getAPIVersion u)),
                                    ("kind", .str (getKind u)),
                                    ("resourceRef", resourceRef)]),
                       ("reason", .str memberReason)])]

/-- `GenerateXRUsage` (src/fn.go:184-216): identical construction for the
composite, duplicated in the source, differing only in the reason string. -/
def GenerateXRUsage (u : Unstructured) : JVal :=
  let ns := getNamespace u
  let usageType := if ns = "" then ClusterUsageKind else UsageKind
  let resourceRef : JVal :=
    if ns = "" then .obj [("name", .str (getName u))]
    else .obj [("name", .str (getName u)), ("namespace", .str (getNamespace u))]
  .obj [("apiVersion", .str ProtectionGroupVersion),
        ("kind", .str usageType),
        ("metadata", .obj [("name", .str (getName u ++ "-function-protection"))]),
        ("spec", .obj [("of", .obj [("apiVersion", .str (getAPIVersion u)),
                                    ("kind", .str (getKind u)),
                                    ("resourceRef", resourceRef)]),
                       ("reason", .str xrReason)])]

/-- Successful result of `convertViaJSON(composed.New(), usage)`: the JSON
round trip is the identity on the object structure.  Whether the external
encoder fails at all is modelled by the `convertFails` oracle below. -/
def convertUsage (v : JVal) : Unstructured :=
  match v with
  | .obj fs => some fs
  | _ => none

/-- Go map assignment `m[k] = v`, under lookup semantics (the new entry
shadows any earlier entry for `k`). -/
def setKey (m : ResMap) (k : String) (v : Unstructured) : ResMap :=
  (k, v) :: m

/-- `errors.Wrap(err, msg)`. -/
def wrapErr (msg cause : String) : String := msg ++ ": " ++ cause

/-- The member loop of `RunFunction` (src/fn.go:64-84) under one admissible
schedule: it visits the keys the desired map had when the loop started,
reading the value currently stored for the key (the loop overwrites entries
of the very map it ranges over), looks the key up among the observed
resources, and for each protected member converts a usage record built from
the observed copy and stores it under `<observedName>-protection`,
incrementing the protected count.  The Go specification also permits range
to produce entries added during the iteration; that full semantics is the
relation `RangeExec` below, of which this function computes one admissible
execution (`memberLoop_rangeExec`). -/
def MemberLoop (convertFails : JVal → Option String) (observed : ResMap) :
    List String → ResMap → Nat → Except String (ResMap × Nat)
  | [], dmap, cnt => .ok (dmap, cnt)
  | name :: rest, dmap, cnt =>
    match List.lookup name dmap, List.lookup name observed with
    | some desired, some obs =>
      if ProtectResource desired ProtectionLabelBlockDeletion
          || ProtectResource obs ProtectionLabelBlockDeletion then
        let usage := GenerateUsage obs
        match convertFails usage with
        | some e => .error (wrapErr "cannot convert usage to unstructured" e)
        | none =>
          MemberLoop convertFails observed rest
            (setKey dmap (getName obs ++ "-protection") (convertUsage usage)) (cnt + 1)
      else MemberLoop convertFails observed rest dmap cnt
    | _, _ => MemberLoop convertFails observed rest dmap cnt

/-- The composite-protection block of `RunFunction` (src/fn.go:87-97),
factored out: when the composite carries the label or any member was
protected, convert a usage record built from the composite and store it
under `<compositeName>-xr-protection`. -/
def XRStep (convertFails : JVal → Option String) (oc : Unstructured)
    (protectedCount : Nat) (dmap : ResMap) : Except String ResMap :=
  if ProtectXR oc = true ∨ 0 < protectedCount then
    let usage := GenerateXRUsage oc
    match convertFails usage with
    | some e => .error (wrapErr "cannot convert usage to unstructured" e)
    | none => .ok (setKey dmap (getName oc ++ "-xr-protection") (convertUsage usage))
  else .ok dmap

/-- The inbound request, after the transport: each accessor either yields its
resource(s) or fails with a message (external SDK retrieval). -/
structure Request where
  observedComposite : Except String Unstructured
  observedComposed : Except String ResMap
  desiredComposed : Except String ResMap

/-- The outbound response: an optional fatal message, the installed desired
set (absent on every fatal path, because it is only installed at the end),
and whether the `FunctionSuccess` condition was attached. -/
structure Response where
  fatal : Option String
  desired : Option ResMap
  success : Bool

/-- `response.Fatal` followed by an immediate return: the invocation is
marked failed and no desired set is installed. -/
def FatalResp (msg : String) : Response :=
  { fatal := some msg, desired := none, success := false }

/-- `RunFunction` (src/fn.go:34-112).  `convertFails` and `setFails` are the
failure oracles of the external `convertViaJSON` and
`response.SetDesiredComposedResources` layers. -/
def RunFunction (convertFails : JVal → Option String)
    (setFails : ResMap → Option String) (req : Request) : Response :=
  match req.observedComposite with
  | .error e => FatalResp (wrapErr "cannot get observed composite" e)
  | .ok observedComposite =>
    match req.observedComposed with
    | .error e => FatalResp (wrapErr "cannot get observed resources" e)
    | .ok observedComposed =>
      match req.desiredComposed with
      | .error e =>
        FatalResp (wrapErr "cannot get desired composed resources from *v1.RunFunctionRequest" e)
      | .ok desiredComposed =>
        match MemberLoop convertFails observedComposed
            (desiredComposed.map Prod.fst) desiredComposed 0 with
        | .error msg => FatalResp msg
        | .ok (dmap, protectedCount) =>
          match XRStep convertFails observedComposite protectedCount dmap with
          | .error msg => FatalResp msg
          | .ok dmap2 =>
            match setFails dmap2 with
            | some e => FatalResp (wrapErr "cannot set desired resources" e)
            | none => { fatal := none, desired := some dmap2, success := true }

/-- One iteration step of the member loop (the body of src/fn.go:66-82 for a
single produced key): read the value currently stored for the key, look the
key up among the observed resources, and when either copy carries the
protection label convert a usage record built from the observed copy and
store it under `<observedName>-protection`, incrementing the count. -/
def LoopStep (convertFails : JVal → Option String) (observed : ResMap)
    (name : String) (dmap : ResMap) (cnt : Nat) : Except String (ResMap × Nat) :=
  match List.lookup name dmap, List.lookup name observed with
  | some desired, some obs =>
    if ProtectResource desired ProtectionLabelBlockDeletion
        || ProtectResource obs ProtectionLabelBlockDeletion then
      let usage := GenerateUsage obs
      match convertFails usage with
      | some e => .error (wrapErr "cannot convert usage to unstructured" e)
      | none =>
        .ok (setKey dmap (getName obs ++ "-protection") (convertUsage usage), cnt + 1)
    else .ok (dmap, cnt)
  | _, _ => .ok (dmap, cnt)

/-- Executions of the member loop permitted by the Go specification's range
semantics over maps: every key present when the range starts (`must`) is
produced exactly once, in an unspecified order; an entry created during the
iteration may additionally be produced, at most once, at any point at which
it is present; no entry is deleted here.  `produced` records the keys already
produced.  A full loop execution starts from `must` = the desired map's keys
and `produced` = `[]`. -/
inductive RangeExec (convertFails : JVal → Option String) (observed : ResMap) :
    List String → List String → ResMap → Nat → Except String (ResMap × Nat) → Prop
  | done (produced : List String) (dmap : ResMap) (cnt : Nat) :
      RangeExec convertFails observed [] produced dmap cnt (.ok (dmap, cnt))
  | stepError (must produced : List String) (k : String) (dmap : ResMap) (cnt : Nat)
      (e : String) :
      k ∉ produced →
      (k ∈ must ∨ (List.lookup k dmap).isSome = true) →
      LoopStep convertFails observed k dmap cnt = .error e →
      RangeExec convertFails observed must produced dmap cnt (.error e)
  | stepOk (must produced : List String) (k : String) (dmap : ResMap) (cnt : Nat)
      (dmap2 : ResMap) (cnt2 : Nat) (res : Except String (ResMap × Nat)) :
      k ∉ produced →
      (k ∈ must ∨ (List.lookup k dmap).isSome = true) →
      LoopStep convertFails observed k dmap cnt = .ok (dmap2, cnt2) →
      RangeExec convertFails observed (must.erase k) (k :: produced) dmap2 cnt2 res →
      RangeExec convertFails observed must produced dmap cnt res

/-- The handler under the full range semantics: as `RunFunction`, but the
member loop may follow any visit sequence `RangeExec` admits.
`RunFunction` realizes one such sequence (`runFunction_runFunctionRel`). -/
def RunFunctionRel (convertFails : JVal → Option String)
    (setFails : ResMap → Option String) (req : Request) (rsp : Response) : Prop :=
  match req.observedComposite with
  | .error e => rsp = FatalResp (wrapErr "cannot get observed composite" e)
  | .ok observedComposite =>
    match req.observedComposed with
    | .error e => rsp = FatalResp (wrapErr "cannot get observed resources" e)
    | .ok observedComposed =>
      match req.desiredComposed with
      | .error e =>
        rsp = FatalResp
          (wrapErr "cannot get desired composed resources from *v1.RunFunctionRequest" e)
      | .ok desiredComposed =>
        ∃ lres, RangeExec convertFails observedComposed
            (desiredComposed.map Prod.fst) [] desiredComposed 0 lres
          ∧ match lres with
            | .error msg => rsp = FatalResp msg
            | .ok (dmap, protectedCount) =>
              match XRStep convertFails observedComposite protectedCount dmap with
              | .error msg => rsp = FatalResp msg
              | .ok dmap2 =>
                match setFails dmap2 with
                | some e => rsp = FatalResp (wrapErr "cannot set desired resources" e)
                | none => rsp = { fatal := none, desired := some dmap2, success := true }

/-! Observation helpers: read the fields of a generated usage record back,
through the same field-access semantics as the program. -/

/-- Field of an object value. -/
def jField (v : JVal) (k : String) : Option JVal :=
  match v with
  | .obj fs => getField fs k
  | _ => none

/-- String field of an object value. -/
def jStr (v : JVal) (k : String) : Option String :=
  match jField v k with
  | some (.str s) => some s
  | _ => none

/-- `kind` of a usage record. -/
def usageKindOf (v : JVal) : Option String := jStr v "kind"

/-- `apiVersion` of a usage record. -/
def usageApiVersionOf (v : JVal) : Option String := jStr v "apiVersion"

/-- `metadata.name` of a usage record. -/
def usageNameOf (v : JVal) : Option String :=
  (jField v "metadata").bind (fun m => jStr m "name")

/-- `spec.of` of a usage record. -/
def specOfOf (v : JVal) : Option JVal :=
  (jField v "spec").bind (fun s => jField s "of")

/-- `spec.of.apiVersion` of a usage record. -/
def ofApiVersionOf (v : JVal) : Option String :=
  (specOfOf v).bind (fun o => jStr o "apiVersion")

/-- `spec.of.kind` of a usage record. -/
def ofKindOf (v : JVal) : Option String :=
  (specOfOf v).bind (fun o => jStr o "kind")

/-- `spec.of.resourceRef` of a usage record. -/
def refOfOf (v : JVal) : Option JVal :=
  (specOfOf v).bind (fun o => jField o "resourceRef")

/-- `spec.of.resourceRef.name` of a usage record. -/
def refNameOf (v : JVal) : Option String :=
  (refOfOf v).bind (fun r => jStr r "name")

/-- `spec.of.resourceRef.namespace` of a usage record (`none` when the
reference has no namespace field). -/
def refNamespaceOf (v : JVal) : Option String :=
  (refOfOf v).bind (fun r => jStr r "namespace")

/-- `spec.reason` of a usage record. -/
def reasonOf (v : JVal) : Option String :=
  (jField v "spec").bind (fun s => jStr s "reason")

/-- `spec.of.kind` of a stored resource (for observing entries of the
desired set). -/
def resOfKind (u : Unstructured) : Option String :=
  match u with
  | some fs => ofKindOf (.obj fs)
  | none => none

/-! Input-level characterisation of the member loop: which insertions a
member gives rise to, computed from the request's (initial) copies. -/

/-- Insertion a member key gives rise to, judged from the request's desired
and observed copies: present exactly when the key is found in both maps and
either copy carries the protection label. -/
def insertFor (observed desired : ResMap) (n : String) : Option (String × Unstructured) :=
  match List.lookup n desired, List.lookup n observed with
  | some d, some o =>
    if ProtectResource d ProtectionLabelBlockDeletion
        || ProtectResource o ProtectionLabelBlockDeletion then
      some (getName o ++ "-protection", convertUsage (GenerateUsage o))
    else none
  | _, _ => none

/-- All insertions of the member loop, in iteration order, judged from the
request's copies. -/
def MemberInserts (observed desired : ResMap) : List (String × Unstructured) :=
  (desired.map Prod.fst).filterMap (insertFor observed desired)

/-- Apply a list of insertions to a map, in order. -/
def FoldInserts (dmap : ResMap) (ins : List (String × Unstructured)) : ResMap :=
  ins.foldl (fun m kv => setKey m kv.1 kv.2) dmap

/-! Editing helpers, used to state that two inputs differ only in a given
label entry (claim about the unused `enabled` label) or only in the reason
string (claim about the two generators). -/

/-- Apply `f` to the value stored under `key` (all occurrences), leaving the
rest of the field list unchanged. -/
def editAt (fs : List (String × JVal)) (key : String) (f : JVal → JVal) :
    List (String × JVal) :=
  fs.map (fun p => if p.1 == key then (p.1, f p.2) else p)

/-- Remove every entry stored under `key`. -/
def removeKey (fs : List (String × JVal)) (key : String) : List (String × JVal) :=
  fs.filter (fun p => p.1 != key)

/-- Drop the `enabled` label from a labels object (other values untouched). -/
def dropEnabledInLabels : JVal → JVal
  | .obj lfs => .obj (removeKey lfs ProtectionLabelEnabled)
  | v => v

/-- Drop the `enabled` label inside a `metadata` object. -/
def dropEnabledInMeta : JVal → JVal
  | .obj mfs => .obj (editAt mfs "labels" dropEnabledInLabels)
  | v => v

/-- Erase the `enabled` label from a resource: two resources are "the same
except for the presence or value of the enabled label" when their erasures
coincide. -/
def RemoveEnabled (u : Unstructured) : Unstructured :=
  match u with
  | none => none
  | some fs => some (editAt fs "metadata" dropEnabledInMeta)

/-- Every `enabled` entry of the resource's labels object (there is at most
one in a real map) holds a string, the shape the data model gives labels;
trivially true when there is no labels object or no such entry. -/
def EnabledEntryOk (u : Unstructured) : Bool :=
  match labelsVal u with
  | some (.obj lfs) => lfs.all (fun p => p.1 != ProtectionLabelEnabled || isStrVal p)
  | _ => true

/-- Overwrite `spec.reason` in a spec object. -/
def setReasonInSpec (r : String) : JVal → JVal
  | .obj sfs => .obj (editAt sfs "reason" (fun _ => .str r))
  | v => v

/-- Overwrite the reason string of a usage record. -/
def WithReason (v : JVal) (r : String) : JVal :=
  match v with
  | .obj fs => .obj (editAt fs "spec" (setReasonInSpec r))
  | v => v

/-! Association-list (map) lemmas. -/

theorem lookup_mem {β : Type} {n : String} {v : β} : ∀ {l : List (String × β)},
    List.lookup n l = some v → (n, v) ∈ l
  | [], h => by simp [List.lookup] at h
  | (a, b) :: t, h => by
    rw [List.lookup_cons] at h
    by_cases hna : n = a
    · subst hna
      simp only [beq_self_eq_true] at h
      cases h
      exact List.mem_cons_self _ _
    · rw [beq_false_of_ne hna] at h
      exact List.mem_cons_of_mem _ (lookup_mem h)

theorem mem_lookup {β : Type} {n : String} {v : β} : ∀ {l : List (String × β)},
    (l.map Prod.fst).Nodup → (n, v) ∈ l → List.lookup n l = some v
  | [], _, hm => absurd hm (List.not_mem_nil _)
  | (a, b) :: t, hnd, hm => by
    rw [List.map_cons, List.nodup_cons] at hnd
    rw [List.lookup_cons]
    rcases List.mem_cons.mp hm with heq | ht
    · rw [Prod.mk.injEq] at heq
      rw [heq.1]
      simp [heq.2]
    · have hna : (n == a) = false := by
        refine beq_false_of_ne (fun he => ?_)
        subst he
        exact hnd.1 (List.mem_map.mpr ⟨_, ht, rfl⟩)
      rw [hna]
      exact mem_lookup hnd.2 ht

theorem lookup_perm {β : Type} {l1 l2 : List (String × β)} (hp : l1.Perm l2)
    (hnd : (l1.map Prod.fst).Nodup) (n : String) :
    List.lookup n l1 = List.lookup n l2 := by
  have hnd2 : (l2.map Prod.fst).Nodup := (hp.map Prod.fst).nodup hnd
  cases h1 : List.lookup n l1 with
  | some v => exact (mem_lookup hnd2 (hp.mem_iff.mp (lookup_mem h1))).symm
  | none =>
    cases h2 : List.lookup n l2 with
    | some v =>
      have hmem := mem_lookup hnd (hp.mem_iff.mpr (lookup_mem h2))
      rw [h1] at hmem
      cases hmem
    | none => rfl

theorem lookup_setKey {m : ResMap} {k n : String} {v : Unstructured} :
    List.lookup n (setKey m k v) = if n = k then some v else List.lookup n m := by
  rw [setKey, List.lookup_cons]
  by_cases h : n = k
  · subst h
    simp
  · simp [beq_false_of_ne h, h]

theorem lookup_append {β : Type} {n : String} : ∀ (l1 l2 : List (String × β)),
    List.lookup n (l1 ++ l2) = (List.lookup n l1).or (List.lookup n l2)
  | [], l2 => by simp
  | (a, b) :: t, l2 => by
    rw [List.cons_append, List.lookup_cons, List.lookup_cons]
    cases hna : n == a
    · exact lookup_append t l2
    · rfl

theorem foldInserts_eq : ∀ (ins : List (String × Unstructured)) (dmap : ResMap),
    FoldInserts dmap ins = ins.reverse ++ dmap
  | [], _ => rfl
  | kv :: t, dmap => by
    show FoldInserts (setKey dmap kv.1 kv.2) t = (kv :: t).reverse ++ dmap
    rw [foldInserts_eq t, List.reverse_cons, List.append_assoc]
    rfl

theorem lookup_foldInserts {ins : List (String × Unstructured)} {dmap : ResMap}
    (hnd : (ins.map Prod.fst).Nodup) (n : String) :
    List.lookup n (FoldInserts dmap ins) =
      (List.lookup n ins).or (List.lookup n dmap) := by
  have hp : ins.reverse.Perm ins := List.reverse_perm ins
  have hnd2 : (ins.reverse.map Prod.fst).Nodup := ((hp.map Prod.fst).nodup_iff).mpr hnd
  rw [foldInserts_eq, lookup_append, lookup_perm hp hnd2 n]

theorem foldInserts_cons {dmap : ResMap} {kv : String × Unstructured}
    {ins : List (String × Unstructured)} :
    FoldInserts dmap (kv :: ins) = FoldInserts (setKey dmap kv.1 kv.2) ins := rfl

/-! Member-loop lemmas. -/

/-- When no synthesized member key collides with a key the loop still has to
visit, the loop computes exactly the fold of the insertions judged from the
request's copies, and the protected count is their number. -/
theorem memberLoop_eq_fold (observed desired : ResMap) :
    ∀ (names : List String) (dmap : ResMap) (cnt : Nat),
    (∀ n ∈ names, List.lookup n dmap = List.lookup n desired) →
    (∀ p ∈ observed, ∀ n ∈ names, getName p.2 ++ "-protection" ≠ n) →
    MemberLoop (fun _ => none) observed names dmap cnt =
      .ok (FoldInserts dmap (names.filterMap (insertFor observed desired)),
           cnt + (names.filterMap (insertFor observed desired)).length)
  | [], dmap, cnt, _, _ => by simp [MemberLoop, FoldInserts]
  | name :: rest, dmap, cnt, hinv, hcol => by
    have hd : List.lookup name dmap = List.lookup name desired :=
      hinv name (List.mem_cons_self _ _)
    have hinvr : ∀ n ∈ rest, List.lookup n dmap = List.lookup n desired :=
      fun n hn => hinv n (List.mem_cons_of_mem _ hn)
    have hcolr : ∀ p ∈ observed, ∀ n ∈ rest, getName p.2 ++ "-protection" ≠ n :=
      fun p hp n hn => hcol p hp n (List.mem_cons_of_mem _ hn)
    cases hdes : List.lookup name desired with
    | none =>
      have hdm : List.lookup name dmap = none := by rw [hd, hdes]
      have hins : insertFor observed desired name = none := by
        simp only [insertFor, hdes]
      simp only [MemberLoop, hdm, List.filterMap_cons, hins]
      exact memberLoop_eq_fold observed desired rest dmap cnt hinvr hcolr
    | some d =>
      have hdm : List.lookup name dmap = some d := by rw [hd, hdes]
      cases hobs : List.lookup name observed with
      | none =>
        have hins : insertFor observed desired name = none := by
          simp only [insertFor, hdes, hobs]
        simp only [MemberLoop, hdm, hobs, List.filterMap_cons, hins]
        exact memberLoop_eq_fold observed desired rest dmap cnt hinvr hcolr
      | some o =>
        by_cases hprot : (ProtectResource d ProtectionLabelBlockDeletion
            || ProtectResource o ProtectionLabelBlockDeletion) = true
        · have hins : insertFor observed desired name
              = some (getName o ++ "-protection", convertUsage (GenerateUsage o)) := by
            simp only [insertFor, hdes, hobs, hprot, if_true]
          have hmemobs : (name, o) ∈ observed := lookup_mem hobs
          have hinv2 : ∀ n ∈ rest,
              List.lookup n
                (setKey dmap (getName o ++ "-protection") (convertUsage (GenerateUsage o)))
                = List.lookup n desired := by
            intro n hn
            rw [lookup_setKey,
              if_neg (fun he => hcol (name, o) hmemobs n (List.mem_cons_of_mem _ hn) he.symm)]
            exact hinvr n hn
          simp only [MemberLoop, hdm, hobs, hprot, if_true, List.filterMap_cons, hins,
            List.length_cons, foldInserts_cons]
          rw [memberLoop_eq_fold observed desired rest _ (cnt + 1) hinv2 hcolr]
          congr 2
          omega
        · have hins : insertFor observed desired name = none := by
            simp only [insertFor, hdes, hobs]
            rw [if_neg hprot]
          simp only [MemberLoop, hdm, hobs, List.filterMap_cons, hins]
          rw [if_neg hprot]
          exact memberLoop_eq_fold observed desired rest dmap cnt hinvr hcolr

/-- The member loop only ever writes keys of the form
`<observedName>-protection`: every other key keeps its initial value. -/
theorem memberLoop_frame (conv : JVal → Option String) (observed : ResMap) :
    ∀ (names : List String) (dmap dmap2 : ResMap) (cnt cnt2 : Nat),
    MemberLoop conv observed names dmap cnt = .ok (dmap2, cnt2) →
    ∀ n, (∀ p ∈ observed, n ≠ getName p.2 ++ "-protection") →
    List.lookup n dmap2 = List.lookup n dmap
  | [], dmap, dmap2, cnt, cnt2, h, n, _ => by
    simp only [MemberLoop, Except.ok.injEq, Prod.mk.injEq] at h
    rw [← h.1]
  | name :: rest, dmap, dmap2, cnt, cnt2, h, n, hn => by
    simp only [MemberLoop] at h
    cases hdm : List.lookup name dmap with
    | none =>
      simp only [hdm] at h
      exact memberLoop_frame conv observed rest dmap dmap2 cnt cnt2 h n hn
    | some d =>
      simp only [hdm] at h
      cases hobs : List.lookup name observed with
      | none =>
        simp only [hobs] at h
        exact memberLoop_frame conv observed rest dmap dmap2 cnt cnt2 h n hn
      | some o =>
        simp only [hobs] at h
        by_cases hprot : (ProtectResource d ProtectionLabelBlockDeletion
            || ProtectResource o ProtectionLabelBlockDeletion) = true
        · rw [if_pos hprot] at h
          cases hc : conv (GenerateUsage o) with
          | some e =>
            simp only [hc] at h
            exact Except.noConfusion h
          | none =>
            simp only [hc] at h
            have hrec := memberLoop_frame conv observed rest _ dmap2 (cnt + 1) cnt2 h n hn
            rw [hrec, lookup_setKey,
              if_neg (fun he => hn (name, o) (lookup_mem hobs) he)]
        · rw [if_neg hprot] at h
          exact memberLoop_frame conv observed rest dmap dmap2 cnt cnt2 h n hn

/-- The member loop never removes an entry: a key bound at the start is still
bound at the end. -/
theorem memberLoop_mono (conv : JVal → Option String) (observed : ResMap) :
    ∀ (names : List String) (dmap dmap2 : ResMap) (cnt cnt2 : Nat),
    MemberLoop conv observed names dmap cnt = .ok (dmap2, cnt2) →
    ∀ n, (List.lookup n dmap).isSome = true → (List.lookup n dmap2).isSome = true
  | [], dmap, dmap2, cnt, cnt2, h, n, hs => by
    simp only [MemberLoop, Except.ok.injEq, Prod.mk.injEq] at h
    rw [← h.1]
    exact hs
  | name :: rest, dmap, dmap2, cnt, cnt2, h, n, hs => by
    simp only [MemberLoop] at h
    cases hdm : List.lookup name dmap with
    | none =>
      simp only [hdm] at h
      exact memberLoop_mono conv observed rest dmap dmap2 cnt cnt2 h n hs
    | some d =>
      simp only [hdm] at h
      cases hobs : List.lookup name observed with
      | none =>
        simp only [hobs] at h
        exact memberLoop_mono conv observed rest dmap dmap2 cnt cnt2 h n hs
      | some o =>
        simp only [hobs] at h
        by_cases hprot : (ProtectResource d ProtectionLabelBlockDeletion
            || ProtectResource o ProtectionLabelBlockDeletion) = true
        · rw [if_pos hprot] at h
          cases hc : conv (GenerateUsage o) with
          | some e =>
            simp only [hc] at h
            exact Except.noConfusion h
          | none =>
            simp only [hc] at h
            refine memberLoop_mono conv observed rest _ dmap2 (cnt + 1) cnt2 h n ?_
            rw [lookup_setKey]
            by_cases he : n = getName o ++ "-protection"
            · rw [if_pos he]
              rfl
            · rw [if_neg he]
              exact hs
        · rw [if_neg hprot] at h
          exact memberLoop_mono conv observed rest dmap dmap2 cnt cnt2 h n hs

/-! Composite-step lemmas. -/

theorem xrStep_ok (oc : Unstructured) (cnt : Nat) (dmap : ResMap) :
    XRStep (fun _ => none) oc cnt dmap =
      .ok (if ProtectXR oc = true ∨ 0 < cnt then
             setKey dmap (getName oc ++ "-xr-protection") (convertUsage (GenerateXRUsage oc))
           else dmap) := by
  rw [XRStep]
  by_cases h : ProtectXR oc = true ∨ 0 < cnt
  · rw [if_pos h, if_pos h]
  · rw [if_neg h, if_neg h]

theorem xrStep_frame (conv : JVal → Option String) (oc : Unstructured) (cnt : Nat)
    (dmap dmap2 : ResMap) (h : XRStep conv oc cnt dmap = .ok dmap2) (n : String)
    (hn : n ≠ getName oc ++ "-xr-protection") :
    List.lookup n dmap2 = List.lookup n dmap := by
  rw [XRStep] at h
  by_cases hx : ProtectXR oc = true ∨ 0 < cnt
  · rw [if_pos hx] at h
    cases hc : conv (GenerateXRUsage oc) with
    | some e =>
      simp only [hc] at h
      exact Except.noConfusion h
    | none =>
      simp only [hc, Except.ok.injEq] at h
      rw [← h, lookup_setKey, if_neg hn]
  · rw [if_neg hx] at h
    simp only [Except.ok.injEq] at h
    rw [← h]

theorem xrStep_mono (conv : JVal → Option String) (oc : Unstructured) (cnt : Nat)
    (dmap dmap2 : ResMap) (h : XRStep conv oc cnt dmap = .ok dmap2) (n : String)
    (hs : (List.lookup n dmap).isSome = true) :
    (List.lookup n dmap2).isSome = true := by
  rw [XRStep] at h
  by_cases hx : ProtectXR oc = true ∨ 0 < cnt
  · rw [if_pos hx] at h
    cases hc : conv (GenerateXRUsage oc) with
    | some e =>
      simp only [hc] at h
      exact Except.noConfusion h
    | none =>
      simp only [hc, Except.ok.injEq] at h
      rw [← h, lookup_setKey]
      by_cases he : n = getName oc ++ "-xr-protection"
      · rw [if_pos he]
        rfl
      · rw [if_neg he]
        exact hs
  · rw [if_neg hx] at h
    simp only [Except.ok.injEq] at h
    rw [← h]
    exact hs

/-! Handler decomposition on the success path. -/

theorem runFunction_steps (conv : JVal → Option String) (setf : ResMap → Option String)
    (req : Request) (oc : Unstructured) (obs des dmap dmap2 : ResMap) (cnt : Nat)
    (h1 : req.observedComposite = .ok oc)
    (h2 : req.observedComposed = .ok obs)
    (h3 : req.desiredComposed = .ok des)
    (hloop : MemberLoop conv obs (des.map Prod.fst) des 0 = .ok (dmap, cnt))
    (hxr : XRStep conv oc cnt dmap = .ok dmap2)
    (hset : setf dmap2 = none) :
    RunFunction conv setf req = { fatal := none, desired := some dmap2, success := true } := by
  simp only [RunFunction, h1, h2, h3, hloop, hxr, hset]

/-! Claim theorems. -/

/-- C4: for every protected resource, the synthesized usage record is
determined by the resource's namespace alone: an empty namespace yields kind
`ClusterUsage` with a name-only `resourceRef`, a non-empty namespace yields
kind `Usage` with a name-and-namespace `resourceRef`; in both cases the
record's `metadata.name` is `<protected-name>-function-protection` and its
`apiVersion` is the fixed protection group/version constant — for the member
path (`GenerateUsage`) and the primary path (`GenerateXRUsage`) alike. -/
theorem claim_C4 (u : Unstructured) :
    usageApiVersionOf (GenerateUsage u) = some ProtectionGroupVersion
    ∧ usageNameOf (GenerateUsage u) = some (getName u ++ "-function-protection")
    ∧ usageKindOf (GenerateUsage u)
        = some (if getNamespace u = "" then ClusterUsageKind else UsageKind)
    ∧ refNameOf (GenerateUsage u) = some (getName u)
    ∧ refNamespaceOf (GenerateUsage u)
        = (if getNamespace u = "" then none else some (getNamespace u))
    ∧ usageApiVersionOf (GenerateXRUsage u) = some ProtectionGroupVersion
    ∧ usageNameOf (GenerateXRUsage u) = some (getName u ++ "-function-protection")
    ∧ usageKindOf (GenerateXRUsage u)
        = some (if getNamespace u = "" then ClusterUsageKind else UsageKind)
    ∧ refNameOf (GenerateXRUsage u) = some (getName u)
    ∧ refNamespaceOf (GenerateXRUsage u)
        = (if getNamespace u = "" then none else some (getNamespace u)) := by
  by_cases h : getNamespace u = "" <;>
    simp [GenerateUsage, GenerateXRUsage, usageApiVersionOf, usageNameOf, usageKindOf,
      refNameOf, refNamespaceOf, refOfOf, specOfOf, jStr, jField, getField, List.find?, h]


/-- C9: the member-path and primary-path record constructors are equivalent
up to the reason string: each one is the other with its fixed `spec.reason`
wording substituted, and the reasons are the two fixed strings. -/
theorem claim_C9 (u : Unstructured) :
    GenerateXRUsage u = WithReason (GenerateUsage u) xrReason
    ∧ GenerateUsage u = WithReason (GenerateXRUsage u) memberReason
    ∧ reasonOf (GenerateUsage u) = some memberReason
    ∧ reasonOf (GenerateXRUsage u) = some xrReason := by
  by_cases h : getNamespace u = "" <;>
    simp [GenerateUsage, GenerateXRUsage, WithReason, setReasonInSpec, editAt, reasonOf,
      jStr, jField, getField, List.find?, h]

/-- C5: the protection-label check returns true iff the resource has a
labels object (in particular a non-nil underlying object and a `metadata`
object), the exact label key is bound there, and its value is a string
case-insensitively equal to true; every malformation yields false, with no
error, and the member loop simply moves on past a member whose copies both
fail the check. -/
theorem claim_C5 :
    (∀ u : Unstructured,
      MatchLabel u ProtectionLabelBlockDeletion = true ↔
        ∃ lfs v, labelsVal u = some (.obj lfs)
          ∧ getField lfs ProtectionLabelBlockDeletion = some (.str v)
          ∧ eqFold v "true" = true)
    ∧ (∀ (conv : JVal → Option String) (observed dmap : ResMap) (cnt : Nat)
        (n : String) (rest : List String) (d o : Unstructured),
        List.lookup n dmap = some d → List.lookup n observed = some o →
        ProtectResource d ProtectionLabelBlockDeletion = false →
        ProtectResource o ProtectionLabelBlockDeletion = false →
        MemberLoop conv observed (n :: rest) dmap cnt
          = MemberLoop conv observed rest dmap cnt) := by
  constructor
  · intro u
    constructor
    · intro h
      rw [MatchLabel] at h
      cases hl : labelsVal u with
      | none =>
        simp only [hl] at h
        exact Bool.noConfusion h
      | some v =>
        cases v with
        | str s =>
          simp only [hl] at h
          exact Bool.noConfusion h
        | other =>
          simp only [hl] at h
          exact Bool.noConfusion h
        | obj lfs =>
          simp only [hl] at h
          cases hg : getField lfs ProtectionLabelBlockDeletion with
          | none =>
            simp only [hg] at h
            exact Bool.noConfusion h
          | some w =>
            cases w with
            | obj gfs =>
              simp only [hg] at h
              exact Bool.noConfusion h
            | other =>
              simp only [hg] at h
              exact Bool.noConfusion h
            | str val =>
              simp only [hg] at h
              exact ⟨lfs, val, rfl, hg, h⟩
    · rintro ⟨lfs, v, h1, h2, h3⟩
      rw [MatchLabel]
      simp only [h1, h2]
      exact h3
  · intro conv observed dmap cnt n rest d o hd ho hpd hpo
    simp only [MemberLoop, hd, ho, hpd, hpo, Bool.or_self]
    rw [if_neg Bool.false_ne_true]

/-- Witness for C5: a member whose copies carry no labels at all is skipped
by the loop. -/
theorem claim_C5_witness :
    MemberLoop (fun _ => none) [("m", some [])] ["m"] [("m", some [])] 0
      = MemberLoop (fun _ => none) [("m", some [])] [] [("m", some [])] 0 :=
  claim_C5.2 (fun _ => none) [("m", some [])] [("m", some [])] 0 "m" []
    (some []) (some []) rfl rfl rfl rfl


/-- Every run ends either fatally (no desired set, no success condition) or
successfully (desired set installed, success condition set). -/
theorem runFunction_shape (conv : JVal → Option String) (setf : ResMap → Option String)
    (req : Request) :
    (∃ m, RunFunction conv setf req = FatalResp m)
    ∨ (∃ dm, RunFunction conv setf req
        = { fatal := none, desired := some dm, success := true }) := by
  obtain ⟨rc, ro, rd⟩ := req
  cases rc with
  | error e =>
    refine .inl ⟨wrapErr "cannot get observed composite" e, ?_⟩
    simp only [RunFunction]
  | ok oc =>
    cases ro with
    | error e =>
      refine .inl ⟨wrapErr "cannot get observed resources" e, ?_⟩
      simp only [RunFunction]
    | ok obs =>
      cases rd with
      | error e =>
        refine .inl
          ⟨wrapErr "cannot get desired composed resources from *v1.RunFunctionRequest" e, ?_⟩
        simp only [RunFunction]
      | ok des =>
        cases hl : MemberLoop conv obs (des.map Prod.fst) des 0 with
        | error msg =>
          refine .inl ⟨msg, ?_⟩
          simp only [RunFunction, hl]
        | ok p =>
          obtain ⟨dmap, cnt⟩ := p
          cases hx : XRStep conv oc cnt dmap with
          | error msg =>
            refine .inl ⟨msg, ?_⟩
            simp only [RunFunction, hl, hx]
          | ok dmap2 =>
            cases hs : setf dmap2 with
            | some e =>
              refine .inl ⟨wrapErr "cannot set desired resources" e, ?_⟩
              simp only [RunFunction, hl, hx, hs]
            | none =>
              refine .inr ⟨dmap2, ?_⟩
              simp only [RunFunction, hl, hx, hs]

/-- C2: on an invocation that reaches the primary check (the three envelopes
retrieved and the member loop finished with protected count `cnt`), the
installed desired set is the loop result with exactly one primary record
stored under `<primaryName>-xr-protection` when `ProtectXR` holds of the
primary or `cnt > 0`, and the loop result unchanged (no primary record
added) otherwise; the record references the primary's name, apiVersion and
kind, and `ProtectXR` holds exactly when the primary's labels carry the
block-deletion key with a value case-insensitively `"true"`. -/
theorem claim_C2 (req : Request) (oc : Unstructured) (obs des dmap : ResMap) (cnt : Nat)
    (h1 : req.observedComposite = .ok oc)
    (h2 : req.observedComposed = .ok obs)
    (h3 : req.desiredComposed = .ok des)
    (hloop : MemberLoop (fun _ => none) obs (des.map Prod.fst) des 0 = .ok (dmap, cnt)) :
    (RunFunction (fun _ => none) (fun _ => none) req).desired
      = some (if ProtectXR oc = true ∨ 0 < cnt then
                setKey dmap (getName oc ++ "-xr-protection")
                  (convertUsage (GenerateXRUsage oc))
              else dmap)
    ∧ (∀ v, List.lookup (getName oc ++ "-xr-protection")
          (setKey dmap (getName oc ++ "-xr-protection") v) = some v)
    ∧ refNameOf (GenerateXRUsage oc) = some (getName oc)
    ∧ ofApiVersionOf (GenerateXRUsage oc) = some (getAPIVersion oc)
    ∧ ofKindOf (GenerateXRUsage oc) = some (getKind oc)
    ∧ (ProtectXR oc = true ↔
        ∃ s, List.lookup ProtectionLabelBlockDeletion (GetLabels oc) = some s
          ∧ eqFold s "true" = true) := by
  refine ⟨?_, ?_, ?_, ?_, ?_, ?_⟩
  · rw [runFunction_steps (fun _ => none) (fun _ => none) req oc obs des dmap _ cnt
      h1 h2 h3 hloop (xrStep_ok oc cnt dmap) rfl]
  · intro v
    rw [lookup_setKey, if_pos rfl]
  · by_cases h : getNamespace oc = "" <;>
      simp [GenerateXRUsage, refNameOf, refOfOf, specOfOf, jStr, jField, getField,
        List.find?, h]
  · by_cases h : getNamespace oc = "" <;>
      simp [GenerateXRUsage, ofApiVersionOf, specOfOf, jStr, jField, getField,
        List.find?, h]
  · by_cases h : getNamespace oc = "" <;>
      simp [GenerateXRUsage, ofKindOf, specOfOf, jStr, jField, getField, List.find?, h]
  · constructor
    · intro h
      rw [ProtectXR] at h
      cases hb : List.lookup ProtectionLabelBlockDeletion (GetLabels oc) with
      | none =>
        simp only [hb] at h
        exact Bool.noConfusion h
      | some sv =>
        simp only [hb] at h
        exact ⟨sv, rfl, h⟩
    · rintro ⟨sv, hb, hf⟩
      rw [ProtectXR]
      simp only [hb]
      exact hf

/-- Witness for C2: a primary labelled for protection, empty member maps. -/
theorem claim_C2_witness :
    (RunFunction (fun _ => none) (fun _ => none)
        { observedComposite := .ok (some [("metadata", JVal.obj [("name", JVal.str "p"),
            ("labels", JVal.obj [(ProtectionLabelBlockDeletion, JVal.str "true")])])]),
          observedComposed := .ok [], desiredComposed := .ok [] }).desired
      = some (if ProtectXR (some [("metadata", JVal.obj [("name", JVal.str "p"),
            ("labels", JVal.obj [(ProtectionLabelBlockDeletion, JVal.str "true")])])]) = true
            ∨ 0 < 0 then
          setKey [] (getName (some [("metadata", JVal.obj [("name", JVal.str "p"),
            ("labels", JVal.obj [(ProtectionLabelBlockDeletion, JVal.str "true")])])])
              ++ "-xr-protection")
            (convertUsage (GenerateXRUsage (some [("metadata", JVal.obj [("name", JVal.str "p"),
            ("labels", JVal.obj [(ProtectionLabelBlockDeletion, JVal.str "true")])])])))
        else []) :=
  (claim_C2 _ _ [] [] [] 0 rfl rfl rfl rfl).1


/-- C3: every failure — retrieval of the primary, the observed set or the
desired set, conversion of a synthesized record (in the member loop or the
primary step), or installation of the updated desired set — makes the whole
invocation fail with the wrapped cause, and on every fatal outcome the
response carries no desired set and no success condition (no partial
response), even when records had already been synthesized. -/
theorem claim_C3 (conv : JVal → Option String) (setf : ResMap → Option String)
    (req : Request) :
    (∀ e, req.observedComposite = .error e →
      RunFunction conv setf req = FatalResp (wrapErr "cannot get observed composite" e))
    ∧ (∀ oc e, req.observedComposite = .ok oc → req.observedComposed = .error e →
      RunFunction conv setf req = FatalResp (wrapErr "cannot get observed resources" e))
    ∧ (∀ oc obs e, req.observedComposite = .ok oc → req.observedComposed = .ok obs →
      req.desiredComposed = .error e →
      RunFunction conv setf req = FatalResp
        (wrapErr "cannot get desired composed resources from *v1.RunFunctionRequest" e))
    ∧ (∀ oc obs des msg, req.observedComposite = .ok oc → req.observedComposed = .ok obs →
      req.desiredComposed = .ok des →
      MemberLoop conv obs (des.map Prod.fst) des 0 = .error msg →
      RunFunction conv setf req = FatalResp msg)
    ∧ (∀ oc obs des dmap cnt msg, req.observedComposite = .ok oc →
      req.observedComposed = .ok obs → req.desiredComposed = .ok des →
      MemberLoop conv obs (des.map Prod.fst) des 0 = .ok (dmap, cnt) →
      XRStep conv oc cnt dmap = .error msg →
      RunFunction conv setf req = FatalResp msg)
    ∧ (∀ oc obs des dmap cnt dmap2 e, req.observedComposite = .ok oc →
      req.observedComposed = .ok obs → req.desiredComposed = .ok des →
      MemberLoop conv obs (des.map Prod.fst) des 0 = .ok (dmap, cnt) →
      XRStep conv oc cnt dmap = .ok dmap2 →
      setf dmap2 = some e →
      RunFunction conv setf req = FatalResp (wrapErr "cannot set desired resources" e))
    ∧ (∀ msg, (RunFunction conv setf req).fatal = some msg →
      (RunFunction conv setf req).desired = none
        ∧ (RunFunction conv setf req).success = false) := by
  refine ⟨?_, ?_, ?_, ?_, ?_, ?_, ?_⟩
  · intro e h1
    simp only [RunFunction, h1]
  · intro oc e h1 h2
    simp only [RunFunction, h1, h2]
  · intro oc obs e h1 h2 h3
    simp only [RunFunction, h1, h2, h3]
  · intro oc obs des msg h1 h2 h3 hl
    simp only [RunFunction, h1, h2, h3, hl]
  · intro oc obs des dmap cnt msg h1 h2 h3 hl hx
    simp only [RunFunction, h1, h2, h3, hl, hx]
  · intro oc obs des dmap cnt dmap2 e h1 h2 h3 hl hx hs
    simp only [RunFunction, h1, h2, h3, hl, hx, hs]
  · intro msg h
    rcases runFunction_shape conv setf req with ⟨m, hm⟩ | ⟨dm, hdm⟩
    · rw [hm]
      exact ⟨rfl, rfl⟩
    · rw [hdm] at h
      exact Option.noConfusion h

/-- Witness for C3: a failed primary retrieval is fatal with the wrapped
cause; a conversion failure inside the member loop is fatal; a failed
installation of the desired set is fatal. -/
theorem claim_C3_witness :
    (RunFunction (fun _ => none) (fun _ => none)
        { observedComposite := .error "boom", observedComposed := .ok [],
          desiredComposed := .ok [] }
      = FatalResp (wrapErr "cannot get observed composite" "boom"))
    ∧ (RunFunction (fun _ => some "cfail") (fun _ => none)
        { observedComposite := .ok none,
          observedComposed := .ok [("m", some [])],
          desiredComposed := .ok [("m", some [("metadata", JVal.obj
            [("labels", JVal.obj [(ProtectionLabelBlockDeletion, JVal.str "true")])])])] }
      = FatalResp (wrapErr "cannot convert usage to unstructured" "cfail"))
    ∧ (RunFunction (fun _ => none) (fun _ => some "sfail")
        { observedComposite := .ok none, observedComposed := .ok [],
          desiredComposed := .ok [] }
      = FatalResp (wrapErr "cannot set desired resources" "sfail")) := by
  refine ⟨?_, ?_, ?_⟩
  · exact (claim_C3 (fun _ => none) (fun _ => none) _).1 "boom" rfl
  · exact (claim_C3 (fun _ => some "cfail") (fun _ => none) _).2.2.2.1
      none [("m", some [])] _ _ rfl rfl rfl rfl
  · exact (claim_C3 (fun _ => none) (fun _ => some "sfail") _).2.2.2.2.2.1
      none [] [] [] 0 [] "sfail" rfl rfl rfl rfl rfl rfl


/-- C6: on every successful invocation, a key that is not one of the
synthesizable keys — `<observedName>-protection` for some observed member, or
`<primaryName>-xr-protection` — is bound in the output desired set to exactly
its input value, and no key bound in the input is ever removed (a colliding
key is instead silently overwritten, which is what the first part's
precondition excludes). -/
theorem claim_C6 (conv : JVal → Option String) (setf : ResMap → Option String)
    (req : Request) (oc : Unstructured) (obs des out : ResMap)
    (h1 : req.observedComposite = .ok oc)
    (h2 : req.observedComposed = .ok obs)
    (h3 : req.desiredComposed = .ok des)
    (hout : (RunFunction conv setf req).desired = some out) :
    (∀ n, (∀ p ∈ obs, n ≠ getName p.2 ++ "-protection") →
      n ≠ getName oc ++ "-xr-protection" →
      List.lookup n out = List.lookup n des)
    ∧ (∀ n v, List.lookup n des = some v → (List.lookup n out).isSome = true) := by
  simp only [RunFunction, h1, h2, h3] at hout
  cases hl : MemberLoop conv obs (des.map Prod.fst) des 0 with
  | error msg =>
    simp only [hl] at hout
    simp [FatalResp] at hout
  | ok p =>
    obtain ⟨dmap, cnt⟩ := p
    simp only [hl] at hout
    cases hx : XRStep conv oc cnt dmap with
    | error msg =>
      simp only [hx] at hout
      simp [FatalResp] at hout
    | ok dmap2 =>
      simp only [hx] at hout
      cases hs : setf dmap2 with
      | some e =>
        simp only [hs] at hout
        simp [FatalResp] at hout
      | none =>
        simp only [hs, Option.some.injEq] at hout
        subst hout
        constructor
        · intro n hnp hnx
          calc List.lookup n dmap2
              = List.lookup n dmap := xrStep_frame conv oc cnt dmap dmap2 hx n hnx
            _ = List.lookup n des :=
              memberLoop_frame conv obs (des.map Prod.fst) des dmap 0 cnt hl n hnp
        · intro n v hv
          have m1 := memberLoop_mono conv obs (des.map Prod.fst) des dmap 0 cnt hl n
            (by rw [hv]; rfl)
          exact xrStep_mono conv oc cnt dmap dmap2 hx n m1

/-- Observed member used by the C6 witness (name `x`, no labels). -/
def c6om : Unstructured :=
  some [("metadata", JVal.obj [("name", JVal.str "x")])]

/-- Desired member used by the C6 witness (carries the protection label). -/
def c6dm : Unstructured :=
  some [("metadata", JVal.obj [("name", JVal.str "m"),
    ("labels", JVal.obj [(ProtectionLabelBlockDeletion, JVal.str "true")])])]

/-- Output desired set of the C6 witness run: the input entry plus the member
record and the primary record. -/
def c6out : ResMap :=
  setKey (setKey [("m", c6dm)] (getName c6om ++ "-protection")
      (convertUsage (GenerateUsage c6om)))
    (getName (none : Unstructured) ++ "-xr-protection")
    (convertUsage (GenerateXRUsage none))

/-- Witness for C6: in a run that synthesizes both a member record and a
primary record, the pre-existing entry `m` is returned unchanged. -/
theorem claim_C6_witness :
    List.lookup "m" c6out = List.lookup "m" [("m", c6dm)] :=
  (claim_C6 (fun _ => none) (fun _ => none)
      { observedComposite := .ok none, observedComposed := .ok [("m", c6om)],
        desiredComposed := .ok [("m", c6dm)] }
      none [("m", c6om)] [("m", c6dm)] c6out rfl rfl rfl rfl).1
    "m" (by decide) (by decide)


/-! Lemmas about the full range semantics. -/

theorem lookup_cons_eq {β : Type} {l : List (String × β)} {k n : String} {v : β} :
    List.lookup n ((k, v) :: l) = if n = k then some v else List.lookup n l := by
  rw [List.lookup_cons]
  by_cases h : n = k
  · subst h
    simp
  · simp [beq_false_of_ne h, h]

theorem lookup_eq_none_of_not_mem_keys {β : Type} {n : String} {l : List (String × β)}
    (h : n ∉ l.map Prod.fst) : List.lookup n l = none := by
  cases hl : List.lookup n l with
  | none => rfl
  | some v => exact absurd (List.mem_map.mpr ⟨(n, v), lookup_mem hl, rfl⟩) h

theorem mem_keys_of_lookup_isSome {β : Type} {n : String} {l : List (String × β)}
    (h : (List.lookup n l).isSome = true) : n ∈ l.map Prod.fst := by
  cases hl : List.lookup n l with
  | none =>
    rw [hl] at h
    exact Bool.noConfusion h
  | some v => exact List.mem_map.mpr ⟨(n, v), lookup_mem hl, rfl⟩

/-- With an infallible converter a loop step never fails. -/
theorem loopStep_nf_ne_error (obs : ResMap) (k : String) (dmap : ResMap) (cnt : Nat)
    (e : String) : LoopStep (fun _ => none) obs k dmap cnt ≠ .error e := by
  intro h
  cases hdm : List.lookup k dmap with
  | none =>
    simp only [LoopStep, hdm] at h
    exact Except.noConfusion h
  | some d =>
    cases hobs : List.lookup k obs with
    | none =>
      simp only [LoopStep, hdm, hobs] at h
      exact Except.noConfusion h
    | some o =>
      simp only [LoopStep, hdm, hobs] at h
      by_cases hp : (ProtectResource d ProtectionLabelBlockDeletion
          || ProtectResource o ProtectionLabelBlockDeletion) = true
      · rw [if_pos hp] at h
        exact Except.noConfusion h
      · rw [if_neg hp] at h
        exact Except.noConfusion h

/-- A key with no observed counterpart makes the step a no-op. -/
theorem loopStep_skip (conv : JVal → Option String) (obs : ResMap) {k : String}
    (dmap : ResMap) (cnt : Nat) (h : List.lookup k obs = none) :
    LoopStep conv obs k dmap cnt = .ok (dmap, cnt) := by
  cases hdm : List.lookup k dmap <;> simp only [LoopStep, hdm, h]

/-- `MemberLoop` processes one key by `LoopStep` and recurses. -/
theorem memberLoop_cons_eq (conv : JVal → Option String) (obs : ResMap) (name : String)
    (rest : List String) (dmap : ResMap) (cnt : Nat) :
    MemberLoop conv obs (name :: rest) dmap cnt
      = match LoopStep conv obs name dmap cnt with
        | .error e => .error e
        | .ok (d2, c2) => MemberLoop conv obs rest d2 c2 := by
  cases hdm : List.lookup name dmap with
  | none => simp only [MemberLoop, LoopStep, hdm]
  | some d =>
    cases hobs : List.lookup name obs with
    | none => simp only [MemberLoop, LoopStep, hdm, hobs]
    | some o =>
      by_cases hp : (ProtectResource d ProtectionLabelBlockDeletion
          || ProtectResource o ProtectionLabelBlockDeletion) = true
      · simp only [MemberLoop, LoopStep, hdm, hobs]
        rw [if_pos hp, if_pos hp]
        cases hc : conv (GenerateUsage o) with
        | some e => simp only [hc]
        | none => simp only [hc]
      · simp only [MemberLoop, LoopStep, hdm, hobs]
        rw [if_neg hp, if_neg hp]

/-- The schedule `MemberLoop` computes — the keys present at loop start, in
the stored order — is admissible under the full range semantics. -/
theorem memberLoop_rangeExec (conv : JVal → Option String) (obs : ResMap) :
    ∀ (names produced : List String) (dmap : ResMap) (cnt : Nat),
    names.Nodup → (∀ k ∈ names, k ∉ produced) →
    RangeExec conv obs names produced dmap cnt (MemberLoop conv obs names dmap cnt)
  | [], produced, dmap, cnt, _, _ => RangeExec.done produced dmap cnt
  | name :: rest, produced, dmap, cnt, hnd, hprod => by
    cases hstep : LoopStep conv obs name dmap cnt with
    | error e =>
      rw [memberLoop_cons_eq]
      simp only [hstep]
      exact RangeExec.stepError _ _ name dmap cnt e (hprod name (List.mem_cons_self _ _))
        (.inl (List.mem_cons_self _ _)) hstep
    | ok p =>
      obtain ⟨d2, c2⟩ := p
      rw [memberLoop_cons_eq]
      simp only [hstep]
      refine RangeExec.stepOk _ _ name dmap cnt d2 c2 _
        (hprod name (List.mem_cons_self _ _)) (.inl (List.mem_cons_self _ _)) hstep ?_
      rw [List.erase_cons_head]
      refine memberLoop_rangeExec conv obs rest (name :: produced) d2 c2
        (List.Nodup.of_cons hnd) ?_
      intro k hk
      simp only [List.mem_cons]
      rintro (h1 | h2)
      · exact (List.nodup_cons.mp hnd).1 (h1 ▸ hk)
      · exact hprod k (List.mem_cons_of_mem _ hk) h2

/-- Bookkeeping for a produced key that contributes no insertion. -/
theorem rangeExec_skip_aux (obs des : ResMap) (must : List String) (k : String)
    {dmap : ResMap} {cnt : Nat} {res : Except String (ResMap × Nat)}
    (hkmust : k ∈ must)
    (hinsk : insertFor obs des k = none)
    (hcont : ∃ dmapF,
        res = .ok (dmapF, cnt + ((must.erase k).filterMap (insertFor obs des)).length)
        ∧ ∀ n, List.lookup n dmapF
            = (List.lookup n ((must.erase k).filterMap (insertFor obs des))).or
                (List.lookup n dmap))
    (hins : ((must.filterMap (insertFor obs des)).map Prod.fst).Nodup) :
    ∃ dmapF, res = .ok (dmapF, cnt + (must.filterMap (insertFor obs des)).length)
      ∧ ∀ n, List.lookup n dmapF
          = (List.lookup n (must.filterMap (insertFor obs des))).or (List.lookup n dmap) := by
  have hperm : (must.filterMap (insertFor obs des)).Perm
      ((must.erase k).filterMap (insertFor obs des)) := by
    have h1 := (List.perm_cons_erase hkmust).filterMap (insertFor obs des)
    simp only [List.filterMap_cons, hinsk] at h1
    exact h1
  obtain ⟨dmapF, hres, hpt⟩ := hcont
  refine ⟨dmapF, ?_, ?_⟩
  · rw [hres, hperm.length_eq]
  · intro n
    rw [lookup_perm hperm hins n]
    exact hpt n

/-- Bookkeeping for a produced key that contributes an insertion. -/
theorem rangeExec_ins_aux (obs des : ResMap) (must : List String) (k key2 : String)
    (rec2 : Unstructured)
    {dmap : ResMap} {cnt : Nat} {res : Except String (ResMap × Nat)}
    (hkmust : k ∈ must)
    (hinsk : insertFor obs des k = some (key2, rec2))
    (hins : ((must.filterMap (insertFor obs des)).map Prod.fst).Nodup)
    (hcont : ∃ dmapF,
        res = .ok (dmapF, (cnt + 1) + ((must.erase k).filterMap (insertFor obs des)).length)
        ∧ ∀ n, List.lookup n dmapF
            = (List.lookup n ((must.erase k).filterMap (insertFor obs des))).or
                (List.lookup n (setKey dmap key2 rec2))) :
    ∃ dmapF, res = .ok (dmapF, cnt + (must.filterMap (insertFor obs des)).length)
      ∧ ∀ n, List.lookup n dmapF
          = (List.lookup n (must.filterMap (insertFor obs des))).or (List.lookup n dmap) := by
  have hperm : (must.filterMap (insertFor obs des)).Perm
      ((key2, rec2) :: (must.erase k).filterMap (insertFor obs des)) := by
    have h1 := (List.perm_cons_erase hkmust).filterMap (insertFor obs des)
    simp only [List.filterMap_cons, hinsk] at h1
    exact h1
  have hndcons : (((key2, rec2) :: (must.erase k).filterMap (insertFor obs des)).map
      Prod.fst).Nodup := (hperm.map Prod.fst).nodup hins
  rw [List.map_cons, List.nodup_cons] at hndcons
  have hkeynot : List.lookup key2 ((must.erase k).filterMap (insertFor obs des)) = none :=
    lookup_eq_none_of_not_mem_keys hndcons.1
  obtain ⟨dmapF, hres, hpt⟩ := hcont
  refine ⟨dmapF, ?_, ?_⟩
  · rw [hres, hperm.length_eq, List.length_cons]
    congr 2
    omega
  · intro n
    rw [hpt n, lookup_perm hperm hins n, lookup_cons_eq, lookup_setKey]
    by_cases hk : n = key2
    · subst hk
      rw [hkeynot, if_pos rfl, if_pos rfl]
      rfl
    · rw [if_neg hk, if_neg hk]

/-- Main characterization: when no synthesizable key coincides with an
observed member name, every execution the range semantics admits succeeds,
counts exactly the insertions judged from the request's copies of the keys
still to be produced, and yields the current map overlaid with exactly those
insertions. -/
theorem rangeExec_run (obs des : ResMap)
    (hcolObs : ∀ p ∈ obs, (getName p.2 ++ "-protection") ∉ obs.map Prod.fst)
    {must produced : List String} {dmap : ResMap} {cnt : Nat}
    {res : Except String (ResMap × Nat)}
    (hexec : RangeExec (fun _ => none) obs must produced dmap cnt res) :
    must.Nodup →
    (∀ n ∈ must, List.lookup n dmap = List.lookup n des) →
    (∀ p ∈ obs, (getName p.2 ++ "-protection") ∉ must) →
    (∀ n, (List.lookup n dmap).isSome = true →
      n ∈ must ∨ n ∈ produced ∨ List.lookup n obs = none) →
    ((must.filterMap (insertFor obs des)).map Prod.fst).Nodup →
    ∃ dmapF, res = .ok (dmapF, cnt + (must.filterMap (insertFor obs des)).length)
      ∧ ∀ n, List.lookup n dmapF
          = (List.lookup n (must.filterMap (insertFor obs des))).or (List.lookup n dmap) := by
  induction hexec with
  | done produced dmap cnt =>
    intro _ _ _ _ _
    exact ⟨dmap, by simp, fun n => rfl⟩
  | stepError must produced k dmap cnt e hkprod hkpres hstep =>
    intro _ _ _ _ _
    exact absurd hstep (loopStep_nf_ne_error obs k dmap cnt e)
  | stepOk must produced k dmap cnt dmap2 cnt2 res hkprod hkpres hstep hrest ih =>
    intro hnd hval hcolMust hpres hins
    by_cases hkmust : k ∈ must
    · have hperm0 : must.Perm (k :: must.erase k) := List.perm_cons_erase hkmust
      have hndk : (k :: must.erase k).Nodup := hperm0.nodup hnd
      have hnd2 : (must.erase k).Nodup := (List.nodup_cons.mp hndk).2
      have hsub : (must.erase k).Sublist must := List.erase_sublist k must
      have hins2 : (((must.erase k).filterMap (insertFor obs des)).map Prod.fst).Nodup :=
        ((hsub.filterMap _).map _).nodup hins
      have hcolMust2 : ∀ p ∈ obs, (getName p.2 ++ "-protection") ∉ must.erase k :=
        fun p hp hm => hcolMust p hp (List.mem_of_mem_erase hm)
      have hval_k : List.lookup k dmap = List.lookup k des := hval k hkmust
      cases hdes : List.lookup k des with
      | none =>
        have hdm0 : List.lookup k dmap = none := hval_k.trans hdes
        have hinsk : insertFor obs des k = none := by simp only [insertFor, hdes]
        simp only [LoopStep, hdm0, Except.ok.injEq, Prod.mk.injEq] at hstep
        obtain ⟨h1, h2⟩ := hstep
        subst h1
        subst h2
        refine rangeExec_skip_aux obs des must k hkmust hinsk ?_ hins
        refine ih hnd2 (fun n hn => hval n (List.mem_of_mem_erase hn)) hcolMust2 ?_ hins2
        intro n hsome
        rcases hpres n hsome with hm | hp | ho
        · by_cases hnk : n = k
          · exact .inr (.inl (hnk ▸ List.mem_cons_self k produced))
          · exact .inl ((List.mem_erase_of_ne hnk).mpr hm)
        · exact .inr (.inl (List.mem_cons_of_mem _ hp))
        · exact .inr (.inr ho)
      | some d =>
        have hdm1 : List.lookup k dmap = some d := hval_k.trans hdes
        cases hobs : List.lookup k obs with
        | none =>
          have hinsk : insertFor obs des k = none := by simp only [insertFor, hdes, hobs]
          simp only [LoopStep, hdm1, hobs, Except.ok.injEq, Prod.mk.injEq] at hstep
          obtain ⟨h1, h2⟩ := hstep
          subst h1
          subst h2
          refine rangeExec_skip_aux obs des must k hkmust hinsk ?_ hins
          refine ih hnd2 (fun n hn => hval n (List.mem_of_mem_erase hn)) hcolMust2 ?_ hins2
          intro n hsome
          rcases hpres n hsome with hm | hp | ho
          · by_cases hnk : n = k
            · exact .inr (.inl (hnk ▸ List.mem_cons_self k produced))
            · exact .inl ((List.mem_erase_of_ne hnk).mpr hm)
          · exact .inr (.inl (List.mem_cons_of_mem _ hp))
          · exact .inr (.inr ho)
        | some o =>
          by_cases hp : (ProtectResource d ProtectionLabelBlockDeletion
              || ProtectResource o ProtectionLabelBlockDeletion) = true
          · have hinsk : insertFor obs des k
                = some (getName o ++ "-protection", convertUsage (GenerateUsage o)) := by
              simp only [insertFor, hdes, hobs]
              rw [if_pos hp]
            simp only [LoopStep, hdm1, hobs] at hstep
            rw [if_pos hp] at hstep
            simp only [Except.ok.injEq, Prod.mk.injEq] at hstep
            obtain ⟨h1, h2⟩ := hstep
            subst h1
            subst h2
            have hmemobs : (k, o) ∈ obs := lookup_mem hobs
            have hkeyMust : (getName o ++ "-protection") ∉ must := hcolMust (k, o) hmemobs
            have hkeyObs : List.lookup (getName o ++ "-protection") obs = none :=
              lookup_eq_none_of_not_mem_keys (hcolObs (k, o) hmemobs)
            refine rangeExec_ins_aux obs des must k _ _ hkmust hinsk hins ?_
            refine ih hnd2 ?_ hcolMust2 ?_ hins2
            · intro n hn
              rw [lookup_setKey,
                if_neg (fun he : n = getName o ++ "-protection" =>
                  hkeyMust (he ▸ List.mem_of_mem_erase hn))]
              exact hval n (List.mem_of_mem_erase hn)
            · intro n hsome
              rw [lookup_setKey] at hsome
              by_cases hnkey : n = getName o ++ "-protection"
              · exact .inr (.inr (hnkey ▸ hkeyObs))
              · rw [if_neg hnkey] at hsome
                rcases hpres n hsome with hm | hpr | ho2
                · by_cases hnk : n = k
                  · exact .inr (.inl (hnk ▸ List.mem_cons_self k produced))
                  · exact .inl ((List.mem_erase_of_ne hnk).mpr hm)
                · exact .inr (.inl (List.mem_cons_of_mem _ hpr))
                · exact .inr (.inr ho2)
          · have hinsk : insertFor obs des k = none := by
              simp only [insertFor, hdes, hobs]
              rw [if_neg hp]
            simp only [LoopStep, hdm1, hobs] at hstep
            rw [if_neg hp] at hstep
            simp only [Except.ok.injEq, Prod.mk.injEq] at hstep
            obtain ⟨h1, h2⟩ := hstep
            subst h1
            subst h2
            refine rangeExec_skip_aux obs des must k hkmust hinsk ?_ hins
            refine ih hnd2 (fun n hn => hval n (List.mem_of_mem_erase hn)) hcolMust2 ?_ hins2
            intro n hsome
            rcases hpres n hsome with hm | hpr | ho2
            · by_cases hnk : n = k
              · exact .inr (.inl (hnk ▸ List.mem_cons_self k produced))
              · exact .inl ((List.mem_erase_of_ne hnk).mpr hm)
            · exact .inr (.inl (List.mem_cons_of_mem _ hpr))
            · exact .inr (.inr ho2)
    · have hkpres2 : (List.lookup k dmap).isSome = true := by
        rcases hkpres with h | h
        · exact absurd h hkmust
        · exact h
      have hobs0 : List.lookup k obs = none := by
        rcases hpres k hkpres2 with hm | hpr | ho
        · exact absurd hm hkmust
        · exact absurd hpr hkprod
        · exact ho
      rw [loopStep_skip (fun _ => none) obs dmap cnt hobs0] at hstep
      simp only [Except.ok.injEq, Prod.mk.injEq] at hstep
      obtain ⟨h1, h2⟩ := hstep
      subst h1
      subst h2
      rw [List.erase_of_not_mem hkmust] at ih
      refine ih hnd hval hcolMust ?_ hins
      intro n hsome
      rcases hpres n hsome with hm | hpr | ho
      · exact .inl hm
      · exact .inr (.inl (List.mem_cons_of_mem _ hpr))
      · exact .inr (.inr ho)

/-- `RunFunction` is one realization of the handler under the full range
semantics. -/
theorem runFunction_runFunctionRel (conv : JVal → Option String)
    (setf : ResMap → Option String) (req : Request)
    (hnd : ∀ des, req.desiredComposed = .ok des → (des.map Prod.fst).Nodup) :
    RunFunctionRel conv setf req (RunFunction conv setf req) := by
  obtain ⟨rc, ro, rd⟩ := req
  cases rc with
  | error e => simp only [RunFunctionRel, RunFunction]
  | ok oc =>
    cases ro with
    | error e => simp only [RunFunctionRel, RunFunction]
    | ok obs =>
      cases rd with
      | error e => simp only [RunFunctionRel, RunFunction]
      | ok des =>
        simp only [RunFunctionRel]
        refine ⟨MemberLoop conv obs (des.map Prod.fst) des 0,
          memberLoop_rangeExec conv obs (des.map Prod.fst) [] des 0 (hnd des rfl)
            (fun k _ => List.not_mem_nil k), ?_⟩
        cases hl : MemberLoop conv obs (des.map Prod.fst) des 0 with
        | error msg => simp only [RunFunction, hl]
        | ok p =>
          obtain ⟨dmap, cnt⟩ := p
          cases hx : XRStep conv oc cnt dmap with
          | error msg => simp only [RunFunction, hl, hx]
          | ok dmap2 =>
            cases hs : setf dmap2 with
            | some e => simp only [RunFunction, hl, hx, hs]
            | none => simp only [RunFunction, hl, hx, hs]

/-! Claim C1 concerns the member loop.  As stated — with the label condition
judged on the request's (input) desired copy — it fails: the loop ranges over
the live map, so a usage record synthesized for an earlier member can
overwrite a pre-existing member entry before that entry is visited, and the
label carried by the overwritten input copy is then no longer seen. -/

/-- Observed member `m` of the C1 counterexample: named `x`, labelled. -/
def c1om : Unstructured :=
  some [("metadata", JVal.obj [("name", JVal.str "x"),
    ("labels", JVal.obj [(ProtectionLabelBlockDeletion, JVal.str "true")])])]

/-- Desired member `m` of the C1 counterexample: no labels. -/
def c1dm : Unstructured :=
  some [("metadata", JVal.obj [("name", JVal.str "m")])]

/-- Observed member `x-protection` of the C1 counterexample: named `z`, no
labels. -/
def c1oxp : Unstructured :=
  some [("metadata", JVal.obj [("name", JVal.str "z")])]

/-- Desired member `x-protection` of the C1 counterexample: carries the
protection label on the desired copy. -/
def c1dxp : Unstructured :=
  some [("metadata", JVal.obj [("name", JVal.str "z"),
    ("labels", JVal.obj [(ProtectionLabelBlockDeletion, JVal.str "true")])])]

/-- Observed set of the C1 counterexample. -/
def c1obs : ResMap := [("m", c1om), ("x-protection", c1oxp)]

/-- Desired set of the C1 counterexample, iterated with `m` first. -/
def c1des : ResMap := [("m", c1dm), ("x-protection", c1dxp)]

/-- Request of the C1 counterexample. -/
def c1req : Request :=
  { observedComposite := .ok none, observedComposed := .ok c1obs,
    desiredComposed := .ok c1des }

/-- Counterexample to C1 as stated: the member name `x-protection` is present
in both the desired and the observed set and its desired copy carries the
protection label, yet the successful run adds no record keyed
`z-protection` (`z` being that member's observed name) — because the record
synthesized for member `m` (observed name `x`) overwrote the entry
`x-protection` before the loop visited it. -/
theorem claim_C1_cex :
    (List.lookup "x-protection" c1des = some c1dxp
      ∧ List.lookup "x-protection" c1obs = some c1oxp
      ∧ (ProtectResource c1dxp ProtectionLabelBlockDeletion
          || ProtectResource c1oxp ProtectionLabelBlockDeletion) = true
      ∧ getName c1oxp = "z")
    ∧ (RunFunction (fun _ => none) (fun _ => none) c1req).fatal = none
    ∧ ((RunFunction (fun _ => none) (fun _ => none) c1req).desired.bind
        (fun out => List.lookup ("z" ++ "-protection") out)) = none :=
  ⟨⟨rfl, rfl, rfl, rfl⟩, rfl, rfl⟩

/-- C1 (amended): under the full range semantics — the loop may also produce
entries added during the iteration — provided the desired map's keys are
distinct, no synthesizable key `<observedName>-protection` coincides with a
pre-existing member name or with an observed member name, and protected
members have pairwise distinct observed names, every admissible execution of
the member loop succeeds and inserts and counts exactly one record per
protected member — where a member is protected iff its name is bound in both
the desired and observed sets and the label condition (OR over the two input
copies) holds — yielding the input desired set overlaid with exactly those
insertions; each insertion is keyed `<observedName>-protection` and holds the
record built from the observed copy, whose `spec.of` copies the observed
member's apiVersion, kind and name, plus its namespace when non-empty. -/
theorem claim_C1 (obs des : ResMap)
    (hnd : (des.map Prod.fst).Nodup)
    (hcolDes : ∀ p ∈ obs, (getName p.2 ++ "-protection") ∉ des.map Prod.fst)
    (hcolObs : ∀ p ∈ obs, (getName p.2 ++ "-protection") ∉ obs.map Prod.fst)
    (hins : ((MemberInserts obs des).map Prod.fst).Nodup) :
    (∀ res, RangeExec (fun _ => none) obs (des.map Prod.fst) [] des 0 res →
      ∃ dmapF, res = .ok (dmapF, (MemberInserts obs des).length)
        ∧ ∀ n, List.lookup n dmapF
            = (List.lookup n (MemberInserts obs des)).or (List.lookup n des))
    ∧ (∀ n d o, List.lookup n des = some d → List.lookup n obs = some o →
        (ProtectResource d ProtectionLabelBlockDeletion
          || ProtectResource o ProtectionLabelBlockDeletion) = true →
        (getName o ++ "-protection", convertUsage (GenerateUsage o)) ∈ MemberInserts obs des)
    ∧ (∀ e ∈ MemberInserts obs des, ∃ n d o,
        List.lookup n des = some d ∧ List.lookup n obs = some o
        ∧ (ProtectResource d ProtectionLabelBlockDeletion
            || ProtectResource o ProtectionLabelBlockDeletion) = true
        ∧ e = (getName o ++ "-protection", convertUsage (GenerateUsage o)))
    ∧ (∀ o, ofApiVersionOf (GenerateUsage o) = some (getAPIVersion o)
        ∧ ofKindOf (GenerateUsage o) = some (getKind o)
        ∧ refNameOf (GenerateUsage o) = some (getName o)
        ∧ refNamespaceOf (GenerateUsage o)
            = (if getNamespace o = "" then none else some (getNamespace o))) := by
  refine ⟨?_, ?_, ?_, ?_⟩
  · intro res hexec
    obtain ⟨dmapF, hres, hpt⟩ := rangeExec_run obs des hcolObs hexec hnd (fun n _ => rfl)
      hcolDes (fun n hsome => .inl (mem_keys_of_lookup_isSome hsome)) hins
    rw [Nat.zero_add] at hres
    exact ⟨dmapF, hres, hpt⟩
  · intro n d o hd ho hp
    refine List.mem_filterMap.mpr ⟨n, List.mem_map.mpr ⟨(n, d), lookup_mem hd, rfl⟩, ?_⟩
    simp only [insertFor, hd, ho]
    rw [if_pos hp]
  · intro e he
    obtain ⟨n, hn, hf⟩ := List.mem_filterMap.mp he
    cases hd : List.lookup n des with
    | none =>
      simp only [insertFor, hd] at hf
      exact Option.noConfusion hf
    | some d =>
      cases ho : List.lookup n obs with
      | none =>
        simp only [insertFor, hd, ho] at hf
        exact Option.noConfusion hf
      | some o =>
        simp only [insertFor, hd, ho] at hf
        by_cases hp : (ProtectResource d ProtectionLabelBlockDeletion
            || ProtectResource o ProtectionLabelBlockDeletion) = true
        · rw [if_pos hp] at hf
          exact ⟨n, d, o, hd, ho, hp, (Option.some.injEq _ _ ▸ hf).symm⟩
        · rw [if_neg hp] at hf
          exact Option.noConfusion hf
  · intro o
    by_cases h : getNamespace o = "" <;>
      simp [GenerateUsage, ofApiVersionOf, ofKindOf, refNameOf, refNamespaceOf, refOfOf,
        specOfOf, jStr, jField, getField, List.find?, h]

/-- Witness for C1 (amended): one protected member, no key collisions; the
schedule realized by `MemberLoop` is one admissible execution. -/
theorem claim_C1_witness :
    ∃ dmapF, MemberLoop (fun _ => none) [("m", c1om)] ([("m", c1dm)].map Prod.fst)
        [("m", c1dm)] 0
        = .ok (dmapF, (MemberInserts [("m", c1om)] [("m", c1dm)]).length)
      ∧ ∀ n, List.lookup n dmapF
          = (List.lookup n (MemberInserts [("m", c1om)] [("m", c1dm)])).or
              (List.lookup n [("m", c1dm)]) :=
  (claim_C1 [("m", c1om)] [("m", c1dm)] (by decide) (by decide) (by decide) (by decide)).1
    (MemberLoop (fun _ => none) [("m", c1om)] ([("m", c1dm)].map Prod.fst) [("m", c1dm)] 0)
    (memberLoop_rangeExec (fun _ => none) [("m", c1om)] ([("m", c1dm)].map Prod.fst) []
      [("m", c1dm)] 0 (by decide) (fun k _ => List.not_mem_nil k))


/-- First observed member of the C10 scenario: named `x`, kind `A`,
labelled. -/
def c10o1 : Unstructured :=
  some [("kind", JVal.str "A"), ("metadata", JVal.obj [("name", JVal.str "x"),
    ("labels", JVal.obj [(ProtectionLabelBlockDeletion, JVal.str "true")])])]

/-- Second observed member of the C10 scenario: named `x` as well, kind `B`,
labelled. -/
def c10o2 : Unstructured :=
  some [("kind", JVal.str "B"), ("metadata", JVal.obj [("name", JVal.str "x"),
    ("labels", JVal.obj [(ProtectionLabelBlockDeletion, JVal.str "true")])])]

/-- Observed set of the C10 scenario: two distinct member names whose
observed copies share the metadata name `x`. -/
def c10obs : ResMap := [("m1", c10o1), ("m2", c10o2)]

/-- Desired set of the C10 scenario (members unlabelled; protection comes
from the observed copies). -/
def c10des : ResMap :=
  [("m1", some [("metadata", JVal.obj [("name", JVal.str "m1")])]),
   ("m2", some [("metadata", JVal.obj [("name", JVal.str "m2")])])]

/-- C10: every member insertion is keyed from the observed copy's
`metadata.name`, never from the pipeline member name; in the concrete
scenario where two distinct protected members share the observed name `x`,
both insertions carry the key `x-protection`, the loop still counts two
protected members, and the output holds a single record under that key — the
one from the member written last, whose kind `B` distinguishes it from the
overwritten record of kind `A`. -/
theorem claim_C10 :
    (∀ (obs des : ResMap) (e : String × Unstructured), e ∈ MemberInserts obs des →
      ∃ n o, List.lookup n obs = some o ∧ e.1 = getName o ++ "-protection")
    ∧ (MemberInserts c10obs c10des).map Prod.fst = ["x-protection", "x-protection"]
    ∧ MemberLoop (fun _ => none) c10obs (c10des.map Prod.fst) c10des 0
        = .ok (FoldInserts c10des (MemberInserts c10obs c10des), 2)
    ∧ List.lookup "x-protection" (FoldInserts c10des (MemberInserts c10obs c10des))
        = some (convertUsage (GenerateUsage c10o2))
    ∧ resOfKind (convertUsage (GenerateUsage c10o1)) = some "A"
    ∧ resOfKind (convertUsage (GenerateUsage c10o2)) = some "B" := by
  refine ⟨?_, rfl, rfl, rfl, rfl, rfl⟩
  intro obs des e he
  obtain ⟨n, hn, hf⟩ := List.mem_filterMap.mp he
  cases hd : List.lookup n des with
  | none =>
    simp only [insertFor, hd] at hf
    exact Option.noConfusion hf
  | some d =>
    cases ho : List.lookup n obs with
    | none =>
      simp only [insertFor, hd, ho] at hf
      exact Option.noConfusion hf
    | some o =>
      simp only [insertFor, hd, ho] at hf
      by_cases hp : (ProtectResource d ProtectionLabelBlockDeletion
          || ProtectResource o ProtectionLabelBlockDeletion) = true
      · rw [if_pos hp] at hf
        injection hf with h
        exact ⟨n, o, ho, by rw [← h]⟩
      · rw [if_neg hp] at hf
        exact Option.noConfusion hf

/-- Witness for C10: the insertion of member `m1` is keyed from its observed
name. -/
theorem claim_C10_witness :
    ∃ n o, List.lookup n c10obs = some o
      ∧ ((getName c10o1 ++ "-protection", convertUsage (GenerateUsage c10o1))
          : String × Unstructured).1 = getName o ++ "-protection" :=
  claim_C10.1 c10obs c10des
    (getName c10o1 ++ "-protection", convertUsage (GenerateUsage c10o1))
    (List.mem_cons_self _ _)


/-- Desired set of the C7 counterexample: the entries of `c10des` in the
opposite iteration order (the same map). -/
def c7des2 : ResMap :=
  [("m2", some [("metadata", JVal.obj [("name", JVal.str "m2")])]),
   ("m1", some [("metadata", JVal.obj [("name", JVal.str "m1")])])]

/-- Counterexample to C7 as stated: the two desired sets are permutations of
one another with distinct keys — the same map, iterated in two orders — over
identical observed and primary inputs, yet the record stored under
`x-protection` in the output differs (kind `B` versus kind `A`), because two
protected members share the observed name `x` and the later write wins. -/
theorem claim_C7_cex :
    c10des.Perm c7des2
    ∧ (c10des.map Prod.fst).Nodup
    ∧ (((RunFunction (fun _ => none) (fun _ => none)
          { observedComposite := .ok none, observedComposed := .ok c10obs,
            desiredComposed := .ok c10des }).desired.bind
        (fun out => List.lookup "x-protection" out)).bind resOfKind) = some "B"
    ∧ (((RunFunction (fun _ => none) (fun _ => none)
          { observedComposite := .ok none, observedComposed := .ok c10obs,
            desiredComposed := .ok c7des2 }).desired.bind
        (fun out => List.lookup "x-protection" out)).bind resOfKind) = some "A" :=
  ⟨List.Perm.swap _ _ _, by decide, rfl, rfl⟩

/-- C7 (amended): the multiset of synthesized member insertions (keys and
contents) is the same for every iteration order of the same desired map; and
provided the desired map's keys are distinct, the synthesized member keys are
pairwise distinct (distinct observed names among protected members) and
collide with no pre-existing member name and with no observed member name,
the handler's outcome is the same across all executions the range semantics
admits over the same desired map in either stored order: both invocations
succeed and their desired outputs bind every key to the same value.
(Without the observed-name proviso the handler is not even a deterministic
function of its inputs and the stored order, because the range may or may not
produce an entry added during the iteration.) -/
theorem claim_C7 (oc : Unstructured) (obs des1 des2 : ResMap)
    (hperm : des1.Perm des2)
    (hnd : (des1.map Prod.fst).Nodup)
    (hins : ((MemberInserts obs des1).map Prod.fst).Nodup)
    (hcolDes : ∀ p ∈ obs, (getName p.2 ++ "-protection") ∉ des1.map Prod.fst)
    (hcolObs : ∀ p ∈ obs, (getName p.2 ++ "-protection") ∉ obs.map Prod.fst) :
    (MemberInserts obs des1).Perm (MemberInserts obs des2)
    ∧ (MemberInserts obs des1).length = (MemberInserts obs des2).length
    ∧ ∀ rsp1 rsp2,
        RunFunctionRel (fun _ => none) (fun _ => none)
          { observedComposite := .ok oc, observedComposed := .ok obs,
            desiredComposed := .ok des1 } rsp1 →
        RunFunctionRel (fun _ => none) (fun _ => none)
          { observedComposite := .ok oc, observedComposed := .ok obs,
            desiredComposed := .ok des2 } rsp2 →
        rsp1.fatal = none ∧ rsp2.fatal = none
        ∧ rsp1.success = true ∧ rsp2.success = true
        ∧ ∀ n, rsp1.desired.bind (fun out => List.lookup n out)
            = rsp2.desired.bind (fun out => List.lookup n out) := by
  have hlk := lookup_perm hperm hnd
  have hkp : (des1.map Prod.fst).Perm (des2.map Prod.fst) := hperm.map Prod.fst
  have hfe : insertFor obs des1 = insertFor obs des2 := by
    funext n
    simp only [insertFor, hlk n]
  have hip : (MemberInserts obs des1).Perm (MemberInserts obs des2) := by
    rw [MemberInserts, MemberInserts, ← hfe]
    exact hkp.filterMap _
  refine ⟨hip, hip.length_eq, ?_⟩
  intro rsp1 rsp2 h1 h2
  have hnd2 : (des2.map Prod.fst).Nodup := hkp.nodup hnd
  have hins2 : ((MemberInserts obs des2).map Prod.fst).Nodup := (hip.map Prod.fst).nodup hins
  have hcolDes2 : ∀ p ∈ obs, (getName p.2 ++ "-protection") ∉ des2.map Prod.fst :=
    fun p hp hmem => hcolDes p hp (hkp.mem_iff.mpr hmem)
  simp only [RunFunctionRel] at h1 h2
  obtain ⟨lres1, hexec1, htail1⟩ := h1
  obtain ⟨lres2, hexec2, htail2⟩ := h2
  obtain ⟨dF1, hres1, hpt1⟩ := rangeExec_run obs des1 hcolObs hexec1 hnd (fun n _ => rfl)
    hcolDes (fun n hsome => .inl (mem_keys_of_lookup_isSome hsome)) hins
  obtain ⟨dF2, hres2, hpt2⟩ := rangeExec_run obs des2 hcolObs hexec2 hnd2 (fun n _ => rfl)
    hcolDes2 (fun n hsome => .inl (mem_keys_of_lookup_isSome hsome)) hins2
  rw [Nat.zero_add] at hres1 hres2
  subst hres1
  subst hres2
  simp only [xrStep_ok] at htail1 htail2
  subst htail1
  subst htail2
  refine ⟨rfl, rfl, rfl, rfl, ?_⟩
  intro n
  simp only [Option.some_bind]
  have hcore : ∀ m, List.lookup m dF1 = List.lookup m dF2 := by
    intro m
    rw [hpt1 m, hpt2 m]
    have hlkIns : List.lookup m ((des1.map Prod.fst).filterMap (insertFor obs des1))
        = List.lookup m ((des2.map Prod.fst).filterMap (insertFor obs des2)) :=
      lookup_perm hip hins m
    rw [hlkIns, hlk m]
  have hlen2 : ((des2.map Prod.fst).filterMap (insertFor obs des2)).length
      = ((des1.map Prod.fst).filterMap (insertFor obs des1)).length :=
    hip.length_eq.symm
  rw [hlen2]
  by_cases hc : ProtectXR oc = true
      ∨ 0 < ((des1.map Prod.fst).filterMap (insertFor obs des1)).length
  · rw [if_pos hc, if_pos hc, lookup_setKey, lookup_setKey]
    by_cases he : n = getName oc ++ "-xr-protection"
    · rw [if_pos he, if_pos he]
    · rw [if_neg he, if_neg he]
      exact hcore n
  · rw [if_neg hc, if_neg hc]
    exact hcore n

/-- Observed set of the C7 witness: two protected members with distinct
observed names. -/
def c7obsW : ResMap :=
  [("a", some [("metadata", JVal.obj [("name", JVal.str "u"),
      ("labels", JVal.obj [(ProtectionLabelBlockDeletion, JVal.str "true")])])]),
   ("b", some [("metadata", JVal.obj [("name", JVal.str "v"),
      ("labels", JVal.obj [(ProtectionLabelBlockDeletion, JVal.str "true")])])])]

/-- Desired set of the C7 witness. -/
def c7des1W : ResMap :=
  [("a", some [("metadata", JVal.obj [("name", JVal.str "a")])]),
   ("b", some [("metadata", JVal.obj [("name", JVal.str "b")])])]

/-- The C7 witness desired set in the opposite order. -/
def c7des2W : ResMap :=
  [("b", some [("metadata", JVal.obj [("name", JVal.str "b")])]),
   ("a", some [("metadata", JVal.obj [("name", JVal.str "a")])])]

/-- Witness for C7 (amended): with distinct observed names, the realized
executions over both stored orders bind `u-protection` to the same record. -/
theorem claim_C7_witness :
    ((RunFunction (fun _ => none) (fun _ => none)
        { observedComposite := .ok none, observedComposed := .ok c7obsW,
          desiredComposed := .ok c7des1W }).desired.bind
      (fun out => List.lookup "u-protection" out))
    = ((RunFunction (fun _ => none) (fun _ => none)
        { observedComposite := .ok none, observedComposed := .ok c7obsW,
          desiredComposed := .ok c7des2W }).desired.bind
      (fun out => List.lookup "u-protection" out)) :=
  ((claim_C7 none c7obsW c7des1W c7des2W (List.Perm.swap _ _ _) (by decide) (by decide)
      (by decide) (by decide)).2.2
    (RunFunction (fun _ => none) (fun _ => none)
      { observedComposite := .ok none, observedComposed := .ok c7obsW,
        desiredComposed := .ok c7des1W })
    (RunFunction (fun _ => none) (fun _ => none)
      { observedComposite := .ok none, observedComposed := .ok c7obsW,
        desiredComposed := .ok c7des2W })
    (runFunction_runFunctionRel (fun _ => none) (fun _ => none)
      { observedComposite := .ok none, observedComposed := .ok c7obsW,
        desiredComposed := .ok c7des1W }
      (fun des hdes => by
        injection hdes with h2
        rw [← h2]
        decide))
    (runFunction_runFunctionRel (fun _ => none) (fun _ => none)
      { observedComposite := .ok none, observedComposed := .ok c7obsW,
        desiredComposed := .ok c7des2W }
      (fun des hdes => by
        injection hdes with h2
        rw [← h2]
        decide))).2.2.2.2 "u-protection"


/-! Editing lemmas for the `enabled`-label independence claim. -/

theorem getField_cons (a : String) (v : JVal) (t : List (String × JVal)) (k : String) :
    getField ((a, v) :: t) k = if a = k then some v else getField t k := by
  by_cases h : a = k
  · subst h
    simp [getField, List.find?]
  · simp [getField, List.find?, beq_false_of_ne h, h]

theorem editAt_cons (a : String) (v : JVal) (t : List (String × JVal)) (key : String)
    (f : JVal → JVal) :
    editAt ((a, v) :: t) key f
      = (if a = key then (a, f v) else (a, v)) :: editAt t key f := by
  by_cases h : a = key
  · subst h
    simp [editAt]
  · simp [editAt, beq_false_of_ne h, h]

theorem removeKey_cons (a : String) (v : JVal) (t : List (String × JVal)) (key : String) :
    removeKey ((a, v) :: t) key
      = if a = key then removeKey t key else (a, v) :: removeKey t key := by
  by_cases h : a = key
  · subst h
    simp [removeKey, List.filter_cons]
  · simp [removeKey, List.filter_cons, bne, beq_false_of_ne h, h]

theorem getField_editAt (key : String) (f : JVal → JVal) (k : String)
    (fs : List (String × JVal)) :
    getField (editAt fs key f) k
      = if k = key then (getField fs k).map f else getField fs k := by
  induction fs with
  | nil => by_cases h : k = key <;> simp [getField, editAt, h]
  | cons p t ih =>
    obtain ⟨a, v⟩ := p
    rw [editAt_cons]
    by_cases hak : a = key
    · subst hak
      by_cases hka : k = a
      · subst hka
        rw [if_pos rfl, getField_cons, if_pos rfl, if_pos rfl, getField_cons, if_pos rfl]
        rfl
      · rw [if_pos rfl, getField_cons, if_neg (fun h : a = k => hka h.symm), getField_cons,
          if_neg (fun h : a = k => hka h.symm), if_neg hka]
        rw [ih, if_neg hka]
    · rw [if_neg hak]
      by_cases hka : k = a
      · subst hka
        rw [getField_cons, if_pos rfl, if_neg hak, getField_cons, if_pos rfl]
      · rw [getField_cons, if_neg (fun h : a = k => hka h.symm), getField_cons,
          if_neg (fun h : a = k => hka h.symm)]
        exact ih

theorem getField_removeKey (key k : String) (hk : k ≠ key)
    (fs : List (String × JVal)) :
    getField (removeKey fs key) k = getField fs k := by
  induction fs with
  | nil => rfl
  | cons p t ih =>
    obtain ⟨a, v⟩ := p
    rw [removeKey_cons]
    by_cases hak : a = key
    · rw [if_pos hak, getField_cons, if_neg (fun h : a = k => hk (h.symm.trans hak))]
      exact ih
    · rw [if_neg hak, getField_cons, getField_cons]
      by_cases hka : a = k
      · rw [if_pos hka, if_pos hka]
      · rw [if_neg hka, if_neg hka]
        exact ih


theorem getField_metadata_removeEnabled (fs : List (String × JVal)) :
    getField (editAt fs "metadata" dropEnabledInMeta) "metadata"
      = (getField fs "metadata").map dropEnabledInMeta := by
  rw [getField_editAt, if_pos rfl]

theorem labelsVal_removeEnabled (u : Unstructured) :
    labelsVal (RemoveEnabled u) = (labelsVal u).map dropEnabledInLabels := by
  cases u with
  | none => rfl
  | some fs =>
    simp only [RemoveEnabled, labelsVal, getField_metadata_removeEnabled]
    cases hm : getField fs "metadata" with
    | none => rfl
    | some m =>
      cases m with
      | obj mfs =>
        simp only [Option.map_some', dropEnabledInMeta]
        rw [getField_editAt, if_pos rfl]
      | str sv => rfl
      | other => rfl

theorem nestedString_removeEnabled (u : Unstructured) (k2 : String) (hk : k2 ≠ "labels") :
    nestedString (RemoveEnabled u) "metadata" k2 = nestedString u "metadata" k2 := by
  cases u with
  | none => rfl
  | some fs =>
    simp only [RemoveEnabled, nestedString, getField_metadata_removeEnabled]
    cases hm : getField fs "metadata" with
    | none => rfl
    | some m =>
      cases m with
      | obj mfs =>
        simp only [Option.map_some', dropEnabledInMeta]
        rw [getField_editAt, if_neg hk]
      | str sv => rfl
      | other => rfl

theorem getName_removeEnabled (u : Unstructured) :
    getName (RemoveEnabled u) = getName u :=
  nestedString_removeEnabled u "name" (by decide)

theorem getNamespace_removeEnabled (u : Unstructured) :
    getNamespace (RemoveEnabled u) = getNamespace u :=
  nestedString_removeEnabled u "namespace" (by decide)

theorem topString_removeEnabled (u : Unstructured) (k : String) (hk : k ≠ "metadata") :
    topString (RemoveEnabled u) k = topString u k := by
  cases u with
  | none => rfl
  | some fs =>
    simp only [RemoveEnabled, topString]
    rw [getField_editAt, if_neg hk]

theorem getAPIVersion_removeEnabled (u : Unstructured) :
    getAPIVersion (RemoveEnabled u) = getAPIVersion u :=
  topString_removeEnabled u "apiVersion" (by decide)

theorem getKind_removeEnabled (u : Unstructured) :
    getKind (RemoveEnabled u) = getKind u :=
  topString_removeEnabled u "kind" (by decide)

theorem matchLabel_removeEnabled (u : Unstructured) (label : String)
    (hl : label ≠ ProtectionLabelEnabled) :
    MatchLabel (RemoveEnabled u) label = MatchLabel u label := by
  rw [MatchLabel, MatchLabel, labelsVal_removeEnabled]
  cases hv : labelsVal u with
  | none => rfl
  | some v =>
    cases v with
    | obj lfs =>
      simp only [Option.map_some', dropEnabledInLabels]
      rw [getField_removeKey _ _ hl]
    | str sv => rfl
    | other => rfl

theorem all_removeKey_enabled (lfs : List (String × JVal))
    (hok : lfs.all (fun p => p.1 != ProtectionLabelEnabled || isStrVal p) = true) :
    (removeKey lfs ProtectionLabelEnabled).all isStrVal = lfs.all isStrVal := by
  induction lfs with
  | nil => rfl
  | cons p t ih =>
    obtain ⟨a, v⟩ := p
    rw [List.all_cons, Bool.and_eq_true] at hok
    obtain ⟨h1, h2⟩ := hok
    rw [removeKey_cons]
    by_cases hak : a = ProtectionLabelEnabled
    · rw [if_pos hak, ih h2]
      have hstr : isStrVal (a, v) = true := by
        subst hak
        simpa [bne] using h1
      rw [List.all_cons, hstr, Bool.true_and]
    · rw [if_neg hak, List.all_cons, List.all_cons, ih h2]

theorem lookup_strEntries_removeKey (k key : String) (hk : k ≠ key)
    (lfs : List (String × JVal)) :
    List.lookup k (strEntries (removeKey lfs key)) = List.lookup k (strEntries lfs) := by
  induction lfs with
  | nil => rfl
  | cons p t ih =>
    obtain ⟨a, v⟩ := p
    rw [removeKey_cons]
    by_cases hak : a = key
    · rw [if_pos hak]
      cases v with
      | str sv =>
        have hbeq : (k == a) = false := beq_false_of_ne (fun h => hk (h.trans hak))
        simp only [strEntries, List.filterMap_cons]
        rw [List.lookup_cons]
        simp only [hbeq, cond_false]
        exact ih
      | obj o => exact ih
      | other => exact ih
    · rw [if_neg hak]
      cases v with
      | str sv =>
        simp only [strEntries, List.filterMap_cons]
        rw [List.lookup_cons, List.lookup_cons]
        cases hbeq : k == a
        · simp only [cond_false]
          exact ih
        · rfl
      | obj o =>
        simp only [strEntries, List.filterMap_cons]
        exact ih
      | other =>
        simp only [strEntries, List.filterMap_cons]
        exact ih

theorem protectXR_removeEnabled (u : Unstructured) (hok : EnabledEntryOk u = true) :
    ProtectXR (RemoveEnabled u) = ProtectXR u := by
  rw [ProtectXR, ProtectXR]
  suffices h : List.lookup ProtectionLabelBlockDeletion (GetLabels (RemoveEnabled u))
      = List.lookup ProtectionLabelBlockDeletion (GetLabels u) by
    rw [h]
  rw [GetLabels, GetLabels, labelsVal_removeEnabled, EnabledEntryOk] at *
  cases hv : labelsVal u with
  | none => rfl
  | some v =>
    cases v with
    | obj lfs =>
      rw [hv] at hok
      simp only [Option.map_some', dropEnabledInLabels]
      rw [all_removeKey_enabled lfs hok]
      by_cases ha : lfs.all isStrVal = true
      · rw [if_pos ha, if_pos ha]
        exact lookup_strEntries_removeKey _ _ (by decide) lfs
      · rw [if_neg ha, if_neg ha]
    | str sv => rfl
    | other => rfl

theorem generateUsage_removeEnabled (u : Unstructured) :
    GenerateUsage (RemoveEnabled u) = GenerateUsage u := by
  rw [GenerateUsage, GenerateUsage, getName_removeEnabled, getNamespace_removeEnabled,
    getAPIVersion_removeEnabled, getKind_removeEnabled]

theorem generateXRUsage_removeEnabled (u : Unstructured) :
    GenerateXRUsage (RemoveEnabled u) = GenerateXRUsage u := by
  rw [GenerateXRUsage, GenerateXRUsage, getName_removeEnabled, getNamespace_removeEnabled,
    getAPIVersion_removeEnabled, getKind_removeEnabled]


/-- Two resources are related when they differ at most in the presence or
value of the `enabled` label, and any `enabled` entries hold strings (the
shape the data model gives label values). -/
def ResourceRel (u v : Unstructured) : Prop :=
  RemoveEnabled u = RemoveEnabled v ∧ EnabledEntryOk u = true ∧ EnabledEntryOk v = true

/-- Two resource maps are related when they bind the same names, in the same
iteration order, to related resources. -/
def MapRel : ResMap → ResMap → Prop :=
  List.Forall₂ (fun p q => p.1 = q.1 ∧ ResourceRel p.2 q.2)

theorem rel_matchLabel {u v : Unstructured} (h : ResourceRel u v) :
    MatchLabel u ProtectionLabelBlockDeletion = MatchLabel v ProtectionLabelBlockDeletion := by
  obtain ⟨he, _, _⟩ := h
  rw [← matchLabel_removeEnabled u _ (by decide), he,
    matchLabel_removeEnabled v _ (by decide)]

theorem rel_protectResource {u v : Unstructured} (h : ResourceRel u v) :
    ProtectResource u ProtectionLabelBlockDeletion
      = ProtectResource v ProtectionLabelBlockDeletion := by
  rw [ProtectResource, ProtectResource]
  exact rel_matchLabel h

theorem rel_getName {u v : Unstructured} (h : ResourceRel u v) : getName u = getName v := by
  rw [← getName_removeEnabled u, h.1, getName_removeEnabled v]

theorem rel_generateUsage {u v : Unstructured} (h : ResourceRel u v) :
    GenerateUsage u = GenerateUsage v := by
  rw [← generateUsage_removeEnabled u, h.1, generateUsage_removeEnabled v]

theorem rel_generateXRUsage {u v : Unstructured} (h : ResourceRel u v) :
    GenerateXRUsage u = GenerateXRUsage v := by
  rw [← generateXRUsage_removeEnabled u, h.1, generateXRUsage_removeEnabled v]

theorem rel_protectXR {u v : Unstructured} (h : ResourceRel u v) :
    ProtectXR u = ProtectXR v := by
  obtain ⟨he, hok1, hok2⟩ := h
  rw [← protectXR_removeEnabled u hok1, he, protectXR_removeEnabled v hok2]

theorem lookup_mapRel {m1 m2 : ResMap} (h : MapRel m1 m2) (n : String) :
    (List.lookup n m1 = none ∧ List.lookup n m2 = none)
    ∨ ∃ u v, List.lookup n m1 = some u ∧ List.lookup n m2 = some v ∧ ResourceRel u v := by
  induction h with
  | nil => exact .inl ⟨rfl, rfl⟩
  | @cons x y l1 l2 hxy hrest ih =>
    obtain ⟨a, u⟩ := x
    obtain ⟨b, v⟩ := y
    obtain ⟨hab, hr⟩ := hxy
    cases hab
    cases hn : n == a with
    | false =>
      simp only [List.lookup_cons, hn]
      exact ih
    | true =>
      simp only [List.lookup_cons, hn]
      exact .inr ⟨u, v, rfl, rfl, hr⟩

theorem memberInserts_rel (obs1 obs2 des1 des2 : ResMap)
    (ho : MapRel obs1 obs2) (hd : MapRel des1 des2) :
    MemberInserts obs1 des1 = MemberInserts obs2 des2 := by
  have hkeys : des1.map Prod.fst = des2.map Prod.fst := by
    induction hd with
    | nil => rfl
    | @cons x y l1 l2 hxy hrest ih => simp [hxy.1, ih]
  have hfe : insertFor obs1 des1 = insertFor obs2 des2 := by
    funext n
    rcases lookup_mapRel hd n with ⟨hd1, hd2⟩ | ⟨du, dv, hd1, hd2, hrd⟩
    · simp only [insertFor, hd1, hd2]
    · rcases lookup_mapRel ho n with ⟨ho1, ho2⟩ | ⟨ou, ov, ho1, ho2, hro⟩
      · simp only [insertFor, hd1, hd2, ho1, ho2]
      · simp only [insertFor, hd1, hd2, ho1, ho2]
        rw [rel_protectResource hrd, rel_protectResource hro, rel_getName hro,
          rel_generateUsage hro]
  rw [MemberInserts, MemberInserts, ← hkeys, hfe]

/-- Primary of the C8 counterexample, variant 1: block-deletion `"true"` and
a string-valued `enabled` label. -/
def c8oc1 : Unstructured :=
  some [("metadata", JVal.obj [("name", JVal.str "p"),
    ("labels", JVal.obj [(ProtectionLabelBlockDeletion, JVal.str "true"),
      (ProtectionLabelEnabled, JVal.str "true")])])]

/-- Primary of the C8 counterexample, variant 2: identical except that the
`enabled` label holds a non-string value. -/
def c8oc2 : Unstructured :=
  some [("metadata", JVal.obj [("name", JVal.str "p"),
    ("labels", JVal.obj [(ProtectionLabelBlockDeletion, JVal.str "true"),
      (ProtectionLabelEnabled, JVal.other)])])]

/-- Counterexample to C8 as stated: two primaries that differ only in the
value of the `enabled` label (their erasures coincide) produce different
responses — with a string value the primary's label map is readable, the
block-deletion label fires and a primary record is synthesized; with a
non-string value reading the label map yields the empty map, so no record is
synthesized. -/
theorem claim_C8_cex :
    RemoveEnabled c8oc1 = RemoveEnabled c8oc2
    ∧ ProtectXR c8oc1 = true
    ∧ ProtectXR c8oc2 = false
    ∧ ((RunFunction (fun _ => none) (fun _ => none)
        { observedComposite := .ok c8oc1, observedComposed := .ok [],
          desiredComposed := .ok [] }).desired.bind
      (fun out => List.lookup "p-xr-protection" out)).isSome = true
    ∧ ((RunFunction (fun _ => none) (fun _ => none)
        { observedComposite := .ok c8oc2, observedComposed := .ok [],
          desiredComposed := .ok [] }).desired.bind
      (fun out => List.lookup "p-xr-protection" out)).isSome = false :=
  ⟨rfl, rfl, rfl, rfl, rfl⟩

/-- C8 (amended): the decision path and the synthesized records are
independent of the `enabled` label as long as its value, when present, is a
string: resources differing only in that label agree on the member label
check, on the primary check, and on every generated record; maps of such
resources yield identical member insertions.  (The echoed input copies keep
their labels verbatim, and a non-string `enabled` value on the primary can
flip the primary check, as the counterexample shows.) -/
theorem claim_C8 :
    (∀ u1 u2 : Unstructured, RemoveEnabled u1 = RemoveEnabled u2 →
      MatchLabel u1 ProtectionLabelBlockDeletion = MatchLabel u2 ProtectionLabelBlockDeletion
      ∧ ProtectResource u1 ProtectionLabelBlockDeletion
          = ProtectResource u2 ProtectionLabelBlockDeletion
      ∧ GenerateUsage u1 = GenerateUsage u2
      ∧ GenerateXRUsage u1 = GenerateXRUsage u2
      ∧ getName u1 = getName u2)
    ∧ (∀ u1 u2 : Unstructured, RemoveEnabled u1 = RemoveEnabled u2 →
        EnabledEntryOk u1 = true → EnabledEntryOk u2 = true →
        ProtectXR u1 = ProtectXR u2)
    ∧ (∀ obs1 obs2 des1 des2 : ResMap, MapRel obs1 obs2 → MapRel des1 des2 →
        MemberInserts obs1 des1 = MemberInserts obs2 des2) := by
  refine ⟨?_, ?_, memberInserts_rel⟩
  · intro u1 u2 he
    refine ⟨?_, ?_, ?_, ?_, ?_⟩
    · rw [← matchLabel_removeEnabled u1 _ (by decide), he,
        matchLabel_removeEnabled u2 _ (by decide)]
    · rw [ProtectResource, ProtectResource, ← matchLabel_removeEnabled u1 _ (by decide),
        he, matchLabel_removeEnabled u2 _ (by decide)]
    · rw [← generateUsage_removeEnabled u1, he, generateUsage_removeEnabled u2]
    · rw [← generateXRUsage_removeEnabled u1, he, generateXRUsage_removeEnabled u2]
    · rw [← getName_removeEnabled u1, he, getName_removeEnabled u2]
  · intro u1 u2 he hok1 hok2
    rw [← protectXR_removeEnabled u1 hok1, he, protectXR_removeEnabled u2 hok2]

/-- Witness for C8 (amended): adding a string-valued `enabled` label leaves
the primary check unchanged. -/
theorem claim_C8_witness :
    ProtectXR (some [("metadata", JVal.obj [("labels", JVal.obj
        [(ProtectionLabelBlockDeletion, JVal.str "true"),
         (ProtectionLabelEnabled, JVal.str "yes")])])])
      = ProtectXR (some [("metadata", JVal.obj [("labels", JVal.obj
        [(ProtectionLabelBlockDeletion, JVal.str "true")])])]) :=
  claim_C8.2.1 _ _ rfl rfl rfl

end DeletionProtection
